import Mathlib

/-!
Verification development for the SmartSortierer document organizer
(`src/NAS/document_organizer.py` and `src/NAS/minimal_organizer.py`).

The Python code is shallowly embedded: Python strings are Lean `String`s
(lists of code points), Python floats are `ℚ` (every confidence literal in
the code is an exact decimal; all rationals here are built with `mkRat` so
that they evaluate in the kernel), the filesystem is a map from component
paths to file contents plus a list of directories, and the fallible
LLM/HTTP call is an oracle parameter (`LlmOutcome`).

Python string primitives (`in`, `split`, `replace`, `strip`, slicing) are
re-implemented on `List Char` below, because the corresponding core
`String` functions are defined by well-founded recursion and do not reduce
under `decide`.  `Char.toLower` models `str.lower` (exact on the ASCII
inputs exercised here).
-/

/-- True when the char list `pat` is an initial segment of `hay`
(model of Python `str.startswith` at char level). -/
def startsWithCL : List Char → List Char → Bool
  | _, [] => true
  | [], _ :: _ => false
  | a :: as, b :: bs => a == b && startsWithCL as bs

/-- Model of Python `needle in hay` (substring containment) on char lists. -/
def occursCL (pat : List Char) : List Char → Bool
  | [] => startsWithCL [] pat
  | h :: t => startsWithCL (h :: t) pat || occursCL pat t

/-- Model of Python `needle in hay` on strings. -/
def strContainsPy (hay needle : String) : Bool :=
  occursCL needle.data hay.data

/-- Fuel-driven worker for `pyReplace` (pattern assumed nonempty;
the fuel is the input length, enough because every step consumes a char). -/
def replaceCLF (pat rep : List Char) : Nat → List Char → List Char
  | _, [] => []
  | 0, l => l
  | fuel + 1, c :: t =>
    if startsWithCL (c :: t) pat then rep ++ replaceCLF pat rep fuel ((c :: t).drop pat.length)
    else c :: replaceCLF pat rep fuel t

/-- Model of Python `s.replace(pat, rep)` (all non-overlapping occurrences,
left to right).  The empty-pattern case (never used by the code under
verification) just returns `s`. -/
def pyReplace (s pat rep : String) : String :=
  if pat.data.isEmpty then s
  else ⟨replaceCLF pat.data rep.data s.data.length s.data⟩

/-- Fuel-driven worker for `pySplit` (separator assumed nonempty). -/
def splitCLF (sep : List Char) : Nat → List Char → List Char → List (List Char)
  | _, acc, [] => [acc.reverse]
  | 0, acc, l => [acc.reverse ++ l]
  | fuel + 1, acc, c :: t =>
    if startsWithCL (c :: t) sep then
      acc.reverse :: splitCLF sep fuel [] ((c :: t).drop sep.length)
    else splitCLF sep fuel (c :: acc) t

/-- Model of Python `s.split(sep)` for a nonempty separator
(non-overlapping matches, left to right, `"a_".split("_") = ["a", ""]`). -/
def pySplit (s sep : String) : List String :=
  if sep.data.isEmpty then [s]
  else (splitCLF sep.data (s.data.length + 1) [] s.data).map String.mk

/-- Whitespace recognised by the model of Python `str.strip`. -/
def isWsChar (c : Char) : Bool :=
  c == ' ' || c == '\n' || c == '\t' || c == '\r'

/-- Drop leading whitespace from a char list. -/
def trimStartCL (l : List Char) : List Char := l.dropWhile isWsChar

/-- Model of Python `s.strip()` (whitespace stripped from both ends). -/
def pyStrip (s : String) : String :=
  ⟨((s.data.dropWhile isWsChar).reverse.dropWhile isWsChar).reverse⟩

/-- Characters of Python `str.lower` (ASCII model via `Char.toLower`). -/
def lowerChars (l : List Char) : List Char := l.map Char.toLower

/-- Index of the last `'.'` in a char list, if any. -/
def rfindDot : List Char → Option Nat
  | [] => none
  | c :: t =>
    match rfindDot t with
    | some i => some (i + 1)
    | none => if c == '.' then some 0 else none

/-- JSON values as produced by Python's `json.loads`
(numbers are exact rationals; exponents/special floats are not modelled,
none of the inputs exercised here use them). -/
inductive Json where
  | null
  | bool (b : Bool)
  | num (q : ℚ)
  | str (s : String)
  | arr (items : List Json)
  | obj (fields : List (String × Json))

/-- Left-to-right decimal digit accumulator: value so far, digit count, rest. -/
def parseDigitsAcc (acc cnt : Nat) : List Char → Nat × Nat × List Char
  | [] => (acc, cnt, [])
  | c :: t =>
    if c.isDigit then parseDigitsAcc (acc * 10 + (c.toNat - 48)) (cnt + 1) t
    else (acc, cnt, c :: t)

/-- Parse a JSON number (optional sign, integer part, optional fraction). -/
def parseNumCL (cs : List Char) : Option (ℚ × List Char) :=
  let (neg, cs1) := match cs with
    | '-' :: t => (true, t)
    | _ => (false, cs)
  let (ip, n1, cs2) := parseDigitsAcc 0 0 cs1
  if n1 = 0 then none
  else
    match cs2 with
    | '.' :: t =>
      let (fp, n2, cs3) := parseDigitsAcc 0 0 t
      if n2 = 0 then none
      else
        let mant : Int := (ip * 10 ^ n2 + fp : Nat)
        some (mkRat (if neg then -mant else mant) (10 ^ n2), cs3)
    | _ => some (mkRat (if neg then -(ip : Int) else (ip : Int)) 1, cs2)

/-- Parse a JSON string body (after the opening quote), returning content and
the rest after the closing quote.  Common escapes are modelled. -/
def parseStringCL : Nat → List Char → Option (List Char × List Char)
  | 0, _ => none
  | _, [] => none
  | fuel + 1, c :: t =>
    if c == '"' then some ([], t)
    else if c == '\\' then
      match t with
      | [] => none
      | e :: t2 =>
        let ec := if e == 'n' then '\n' else if e == 't' then '\t' else e
        (parseStringCL fuel t2).map (fun p => (ec :: p.1, p.2))
    else (parseStringCL fuel t).map (fun p => (c :: p.1, p.2))

/-- Opening brace character (written via its code point). -/
def lbrace : Char := Char.ofNat 123

/-- Closing brace character (written via its code point). -/
def rbrace : Char := Char.ofNat 125

mutual

/-- Parse one JSON value; fuel-driven recursive descent. -/
def parseVal : Nat → List Char → Option (Json × List Char)
  | 0, _ => none
  | fuel + 1, cs =>
    match trimStartCL cs with
    | [] => none
    | c :: t =>
      if c == 'n' then
        if startsWithCL t ['u', 'l', 'l'] then some (Json.null, t.drop 3) else none
      else if c == 't' then
        if startsWithCL t ['r', 'u', 'e'] then some (Json.bool true, t.drop 3) else none
      else if c == 'f' then
        if startsWithCL t ['a', 'l', 's', 'e'] then some (Json.bool false, t.drop 4) else none
      else if c == '"' then
        (parseStringCL (t.length + 1) t).map (fun p => (Json.str ⟨p.1⟩, p.2))
      else if c == '[' then
        match trimStartCL t with
        | ']' :: r => some (Json.arr [], r)
        | t2 => (parseItems fuel t2).map (fun p => (Json.arr p.1, p.2))
      else if c == lbrace then
        match trimStartCL t with
        | c2 :: r => if c2 == rbrace then some (Json.obj [], r)
                     else (parseFields fuel (c2 :: r)).map (fun p => (Json.obj p.1, p.2))
        | [] => none
      else (parseNumCL (c :: t)).map (fun p => (Json.num p.1, p.2))

/-- Parse the comma-separated items of a JSON array (after `[`). -/
def parseItems : Nat → List Char → Option (List Json × List Char)
  | 0, _ => none
  | fuel + 1, cs =>
    match parseVal fuel cs with
    | none => none
    | some (v, r) =>
      match trimStartCL r with
      | ',' :: r2 => (parseItems fuel r2).map (fun p => (v :: p.1, p.2))
      | ']' :: r2 => some ([v], r2)
      | _ => none

/-- Parse the fields of a JSON object (after an opening brace). -/
def parseFields : Nat → List Char → Option (List (String × Json) × List Char)
  | 0, _ => none
  | fuel + 1, cs =>
    match trimStartCL cs with
    | '"' :: t =>
      match parseStringCL (t.length + 1) t with
      | none => none
      | some (k, r) =>
        match trimStartCL r with
        | ':' :: r2 =>
          match parseVal fuel r2 with
          | none => none
          | some (v, r3) =>
            match trimStartCL r3 with
            | ',' :: r4 => (parseFields fuel r4).map (fun p => ((⟨k⟩, v) :: p.1, p.2))
            | c :: r4 => if c == rbrace then some ([(⟨k⟩, v)], r4) else none
            | [] => none
        | _ => none
    | _ => none

end

/-- Model of Python `json.loads`: parse one value, reject trailing garbage
(`none` models a raised `JSONDecodeError`). -/
def json_loads (s : String) : Option Json :=
  match parseVal (s.data.length + 1) s.data with
  | some (v, rest) => if trimStartCL rest = [] then some v else none
  | none => none

/-- A folder suggestion as exchanged with the web UI.  `is_new` and
`folder_path` are only set by the minimal implementation's new-folder
proposals (absent keys are modelled by the defaults). -/
structure Suggestion where
  folder : String
  reason : String
  confidence : ℚ
  is_new : Bool := false
  folder_path : Option String := none
deriving DecidableEq

/-- Outcome of the HTTP call to the completion capability: a 200 response
with the extracted `response` text, a non-200 status code, or a raised
exception (connection error / timeout / body-decode failure). -/
inductive LlmOutcome where
  | ok (response : String)
  | httpError (code : Nat)
  | failure

/-- Key lookup in a decoded JSON object; later duplicate keys win, matching
the dict produced by `json.loads`. -/
def jLookup (fields : List (String × Json)) (k : String) : Option Json :=
  match fields with
  | [] => none
  | (k1, v) :: t =>
    match jLookup t k with
    | some r => some r
    | none => if k1 = k then some v else none

/-- Model of Python `float(x)` on a JSON value: `none` models a raised
`TypeError`/`ValueError`.  Numeric strings are parsed as simple decimals
(exponent forms are not used by any input considered here). -/
def floatCoerce : Json → Option ℚ
  | Json.num q => some q
  | Json.bool b => some (if b then mkRat 1 1 else mkRat 0 1)
  | Json.str s =>
    match parseNumCL (trimStartCL ((s.data.reverse.dropWhile isWsChar).reverse)) with
    | some (q, []) => some q
    | _ => none
  | _ => none

/-- Model of Python `str(x)` on a JSON value.  The textual rendering of
composite values is abstracted (it is never inspected by any claim); string
values are returned exactly. -/
def jsonToStr : Json → String
  | Json.str s => s
  | Json.null => "None"
  | Json.bool b => if b then "True" else "False"
  | Json.num q => toString q
  | Json.arr _ => "[...]"
  | Json.obj _ => "\x7b...\x7d"

/-- Model of Python truthiness on a JSON value. -/
def jsonTruthy : Json → Bool
  | Json.null => false
  | Json.bool b => b
  | Json.num q => !(q.num == 0)
  | Json.str s => !s.data.isEmpty
  | Json.arr l => !l.isEmpty
  | Json.obj l => !l.isEmpty

/-- Clamping `max(0.0, min(1.0, confidence))` from
`DocumentProcessor._parse_llm_response`. -/
def clamp01 (q : ℚ) : ℚ := max (mkRat 0 1) (min (mkRat 1 1) q)

instance : DecidableRel (fun a b : Suggestion => b.confidence ≤ a.confidence) :=
  fun a b => inferInstanceAs (Decidable (b.confidence ≤ a.confidence))

instance : DecidableRel (fun a b : String × Nat => b.2 ≤ a.2) :=
  fun a b => inferInstanceAs (Decidable (b.2 ≤ a.2))

/-- Python's stable `list.sort(key=confidence, reverse=True)`, modelled by the
stable insertion sort. -/
def sortByConfDesc (l : List Suggestion) : List Suggestion :=
  List.insertionSort (fun a b : Suggestion => b.confidence ≤ a.confidence) l

/-- Python's stable `sorted(scores.items(), key=score, reverse=True)`. -/
def sortScoresDesc (l : List (String × Nat)) : List (String × Nat) :=
  List.insertionSort (fun a b : String × Nat => b.2 ≤ a.2) l

/-- Validation of one parsed item in `DocumentProcessor._parse_llm_response`:
it must be a dict with `folder`/`reason`/`confidence` keys, the folder must be
a known target folder, the confidence is float-coerced (0.0 on failure) and
clamped to [0,1], the reason is truncated to 100 characters. -/
def validItem (F : List String) (j : Json) : Option Suggestion :=
  match j with
  | Json.obj fields =>
    match jLookup fields "folder", jLookup fields "reason", jLookup fields "confidence" with
    | some fv, some rv, some cv =>
      match fv with
      | Json.str f =>
        if f ∈ F then
          some { folder := f, reason := ⟨(jsonToStr rv).data.take 100⟩,
                 confidence := clamp01 ((floatCoerce cv).getD (mkRat 0 1)) }
        else none
      | _ => none
    | _, _, _ => none
  | _ => none

/-- The list of items surviving validation (`valid_suggestions`). -/
def validA (F : List String) (items : List Json) : List Suggestion :=
  items.filterMap (validItem F)

/-- The `while len(valid_suggestions) < 3` padding loop of
`DocumentProcessor._parse_llm_response`: append the first target folder not
already used, at confidence 0.1, until 3 entries exist or folders run out.
The loop body runs at most 3 times, so fuel 3 is exact. -/
def padA (F : List String) : Nat → List Suggestion → List Suggestion
  | 0, acc => acc
  | fuel + 1, acc =>
    if 3 ≤ acc.length then acc
    else
      match F.filter (fun f => decide (f ∉ acc.map Suggestion.folder)) with
      | [] => acc
      | f :: _ =>
        padA F fuel (acc ++ [{ folder := f, reason := "Allgemeine Zuordnung",
                               confidence := mkRat 1 10 }])

/-- Static keyword table of `DocumentProcessor._fallback_suggestions`. -/
def keywordsDoc : List (String × List String) :=
  [("Rechnungen", ["rechnung", "invoice", "betrag", "eur", "€", "ustid", "mwst"]),
   ("Bank", ["iban", "bic", "überweisung", "konto", "bank"]),
   ("Vertraege", ["vertrag", "contract", "vereinbarung", "bedingungen"]),
   ("Auto", ["kfz", "auto", "fahrzeug", "versicherung", "werkstatt"]),
   ("Arbeit", ["arbeit", "gehalt", "firma", "unternehmen", "job"])]

/-- Scores of `_fallback_suggestions`: for each table folder present in the
available set, count keyword substring hits in the lowercased text, keeping
only positive scores (dict iteration order = table order). -/
def fallbackScores (F : List String) (text : String) : List (String × Nat) :=
  let tl := lowerChars text.data
  keywordsDoc.filterMap (fun p =>
    if p.1 ∈ F then
      let score := p.2.countP (fun w => occursCL w.data tl)
      if 0 < score then some (p.1, score) else none
    else none)

/-- Top-2 scored folders of `_fallback_suggestions`, with confidence
`min(0.7, score * 0.2)` (`mkRat score 5 = score * 0.2` exactly). -/
def fallbackBase (F : List String) (text : String) : List Suggestion :=
  ((sortScoresDesc (fallbackScores F text)).take 2).map (fun p =>
    { folder := p.1, reason := "Schlüsselwörter gefunden",
      confidence := min (mkRat 7 10) (mkRat p.2 5) })

/-- The `while len(suggestions) < 3` padding loop of `_fallback_suggestions`
(and of the minimal `get_fallback_suggestions`, which is textually
identical): prefer `Sonstiges` when still unused, else the first remaining
folder, at confidence 0.1. -/
def padS (F : List String) : Nat → List Suggestion → List Suggestion
  | 0, acc => acc
  | fuel + 1, acc =>
    if 3 ≤ acc.length then acc
    else
      let remaining := F.filter (fun f => decide (f ∉ acc.map Suggestion.folder))
      if "Sonstiges" ∈ remaining then
        padS F fuel (acc ++ [{ folder := "Sonstiges", reason := "Standard-Fallback",
                               confidence := mkRat 1 10 }])
      else
        match remaining with
        | [] => acc
        | f :: _ =>
          padS F fuel (acc ++ [{ folder := f, reason := "Automatische Zuordnung",
                                 confidence := mkRat 1 10 }])

/-- `DocumentProcessor._fallback_suggestions`. -/
def fallback_suggestions (F : List String) (text : String) : List Suggestion :=
  padS F 3 (fallbackBase F text)

/-- The markdown-fence stripping of `_parse_llm_response` /
`get_folder_suggestions_llm`: when "```" occurs, keep the part between the
first two fences and drop a leading "json" marker. -/
def stripFences (s : String) : String :=
  if strContainsPy s "```" then
    let part := (pySplit s "```").getD 1 ""
    if startsWithCL part.data "json".data then ⟨part.data.drop 4⟩ else part
  else s

/-- `DocumentProcessor._parse_llm_response`: strip fences, `json.loads` the
stripped text, require a JSON array, validate each item, sort by descending
confidence, pad to 3, return the first 3.  Any parse/shape failure falls back
to the keyword classifier applied to the empty string (the code calls
`self._fallback_suggestions("")`). -/
def parse_llm_response (F : List String) (response : String) : List Suggestion :=
  match json_loads (pyStrip (stripFences response)) with
  | some (Json.arr items) => (padA F 3 (sortByConfDesc (validA F items))).take 3
  | _ => fallback_suggestions F ""

/-- `DocumentProcessor.get_folder_suggestions` (the prompt construction and
learning hints only influence the model's answer, which is the oracle
parameter here): with no target folders, return the three placeholder
suggestions; on a 200 response parse it; on any HTTP error or exception fall
back to the keyword classifier on the document text. -/
def get_folder_suggestions (F : List String) (text : String) (llm : LlmOutcome) :
    List Suggestion :=
  if F = [] then
    [{ folder := "Sonstiges", reason := "Keine Zielordner gefunden", confidence := mkRat 1 10 },
     { folder := "Sonstiges", reason := "Keine Zielordner gefunden", confidence := mkRat 1 10 },
     { folder := "Sonstiges", reason := "Keine Zielordner gefunden", confidence := mkRat 1 10 }]
  else
    match llm with
    | LlmOutcome.ok response => parse_llm_response F (pyStrip response)
    | LlmOutcome.httpError _ => fallback_suggestions F text
    | LlmOutcome.failure => fallback_suggestions F text

/-- Validation loop of `SimpleDocumentOrganizer.get_folder_suggestions_llm`
over `suggestions[:3]` (already truncated by the caller): items must be dicts
with a `folder` key naming a known folder; the reason defaults and is cut to
80 chars; `float(item.get('confidence', 0.5))` may raise, which aborts the
whole call (`none`), since the minimal implementation has no inner
try/except. -/
def minValidate (F : List String) : List Json → Option (List Suggestion)
  | [] => some []
  | j :: t =>
    match j with
    | Json.obj fields =>
      match jLookup fields "folder" with
      | some (Json.str f) =>
        if f ∈ F then
          match floatCoerce ((jLookup fields "confidence").getD (Json.num (mkRat 1 2))) with
          | none => none
          | some c =>
            (minValidate F t).map (fun l =>
              { folder := f,
                reason := ⟨(jsonToStr ((jLookup fields "reason").getD
                             (Json.str "KI-Vorschlag"))).data.take 80⟩,
                confidence := c } :: l)
        else minValidate F t
      | some _ => minValidate F t
      | none => minValidate F t
    | _ => minValidate F t

/-- Static content-sniffing rule for invoices in
`SimpleDocumentOrganizer.get_default_creation_suggestions`. -/
def invoiceRule (text : String) : Bool :=
  ["rechnung", "invoice", "betrag", "eur", "€"].any
    (fun w => occursCL w.data (lowerChars text.data))

/-- Static content-sniffing rule for contracts in
`get_default_creation_suggestions`. -/
def contractRule (text : String) : Bool :=
  ["vertrag", "contract", "vereinbarung"].any
    (fun w => occursCL w.data (lowerChars text.data))

/-- The two static catch-all proposals of
`get_default_creation_suggestions`. -/
def staticRemaining : List Suggestion :=
  [{ folder := "📁 Dokumente / Neue Kategorie", reason := "Allgemeine Dokumentenablage",
     confidence := mkRat 1 2, is_new := true, folder_path := some "Dokumente/Neue Kategorie" },
   { folder := "📁 Temporär / Zu Sortieren", reason := "Temporäre Ablage für spätere Sortierung",
     confidence := mkRat 2 5, is_new := true, folder_path := some "Temporär/Zu Sortieren" }]

/-- `SimpleDocumentOrganizer.get_default_creation_suggestions`: rule-matched
proposals, topped up from the two static catch-alls, first 3 returned. -/
def get_default_creation_suggestions (text : String) : List Suggestion :=
  let s1 : List Suggestion :=
    if invoiceRule text then
      [{ folder := "📁 Neue Rechnungen", reason := "Rechnungsinhalt erkannt",
         confidence := mkRat 4 5, is_new := true, folder_path := some "Neue Rechnungen" }]
    else []
  let s2 : List Suggestion :=
    if contractRule text then
      [{ folder := "📁 Verträge / Neue Kategorie", reason := "Vertragsinhalt erkannt",
         confidence := mkRat 7 10, is_new := true, folder_path := some "Verträge/Neue Kategorie" }]
    else []
  let base := s1 ++ s2
  let result := if base.length < 3 then base ++ staticRemaining.take (3 - base.length) else base
  result.take 3

/-- Formatting loop of `get_folder_creation_suggestions` over
`suggestions[:3]` (already truncated by the caller): dict items with a
`folder` key become new-folder proposals whose `folder_path` may nest one
level via a truthy `subfolder`; `float(item.get('confidence', 0.7))` may
raise, aborting the whole call (`none`). -/
def creationFromItems : List Json → Option (List Suggestion)
  | [] => some []
  | j :: t =>
    match j with
    | Json.obj fields =>
      match jLookup fields "folder" with
      | some fv =>
        match floatCoerce ((jLookup fields "confidence").getD (Json.num (mkRat 7 10))) with
        | none => none
        | some c =>
          let folderName := jsonToStr fv
          let sub := (jLookup fields "subfolder").getD Json.null
          let fullPath := if jsonTruthy sub then folderName ++ "/" ++ jsonToStr sub
                          else folderName
          let display := if jsonTruthy sub then "📁 " ++ folderName ++ " / " ++ jsonToStr sub
                         else "📁 " ++ folderName
          (creationFromItems t).map (fun l =>
            { folder := display, folder_path := some fullPath,
              reason := ⟨(jsonToStr ((jLookup fields "reason").getD
                           (Json.str "Neuer Ordner-Vorschlag"))).data.take 100⟩,
              confidence := c, is_new := true } :: l)
      | none => creationFromItems t
    | _ => creationFromItems t

/-- `SimpleDocumentOrganizer.get_folder_creation_suggestions`: ask the model
for new folder names (second oracle), format the decoded array; any
exception (HTTP failure, JSON decode failure, slicing a non-sequence,
confidence coercion failure) falls back to the static defaults.  A decoded
JSON string is sliceable: its first 3 characters are iterated, none is a
dict, so the result is empty without an exception. -/
def get_folder_creation_suggestions (F : List String) (text : String)
    (co : LlmOutcome) : List Suggestion :=
  match co with
  | LlmOutcome.ok raw =>
    match json_loads (pyStrip (stripFences (pyStrip raw))) with
    | some (Json.arr items) =>
      match creationFromItems (items.take 3) with
      | some l => l
      | none => get_default_creation_suggestions text
    | some (Json.str _) => []
    | some _ => get_default_creation_suggestions text
    | none => get_default_creation_suggestions text
  | _ => get_default_creation_suggestions text

/-- Static keyword table of `SimpleDocumentOrganizer.get_fallback_suggestions`
(a superset of the full implementation's table). -/
def keywordsMin : List (String × List String) :=
  [("Rechnungen", ["rechnung", "invoice", "betrag", "eur", "€", "mwst", "ust"]),
   ("Bank", ["iban", "bic", "überweisung", "konto", "bank", "sparkasse"]),
   ("Vertraege", ["vertrag", "contract", "vereinbarung", "bedingungen"]),
   ("Auto", ["kfz", "auto", "fahrzeug", "versicherung", "werkstatt", "tüv"]),
   ("Arbeit", ["arbeit", "gehalt", "firma", "unternehmen", "job", "lohn"])]

/-- Scores of the minimal fallback (same shape as `fallbackScores`). -/
def minFallbackScores (F : List String) (text : String) : List (String × Nat) :=
  let tl := lowerChars text.data
  keywordsMin.filterMap (fun p =>
    if p.1 ∈ F then
      let score := p.2.countP (fun w => occursCL w.data tl)
      if 0 < score then some (p.1, score) else none
    else none)

/-- Top-2 scored folders of the minimal fallback, with confidence
`min(0.8, score * 0.3)` (`mkRat (3 * score) 10` is exactly `score * 0.3`). -/
def minFallbackBase (F : List String) (text : String) : List Suggestion :=
  ((sortScoresDesc (minFallbackScores F text)).take 2).map (fun p =>
    { folder := p.1, reason := "Schlüsselwörter erkannt",
      confidence := min (mkRat 4 5) (mkRat (3 * p.2) 10) })

/-- The assembled (base + padding) suggestion list of
`SimpleDocumentOrganizer.get_fallback_suggestions`, before its quality
gate. -/
def minFallbackAssembled (F : List String) (text : String) : List Suggestion :=
  padS F 3 (minFallbackBase F text)

/-- `SimpleDocumentOrganizer.get_fallback_suggestions`: keyword suggestions,
padded; if fewer than 2 reach confidence 0.5 the call delegates to the
new-folder proposer (`co` is the oracle for that nested model call). -/
def get_fallback_suggestions (F : List String) (text : String)
    (co : LlmOutcome) : List Suggestion :=
  let s := minFallbackAssembled F text
  if 2 ≤ s.countP (fun x => decide (mkRat 1 2 ≤ x.confidence)) then s.take 3
  else get_folder_creation_suggestions F text co

/-- `SimpleDocumentOrganizer.get_folder_suggestions_llm`: on a decoded JSON
array, validate the first 3 items; if fewer than 2 validated suggestions
reach confidence 0.6, delegate to the new-folder proposer; a validation
exception or any call/decode failure goes to the keyword fallback.  A decoded
JSON string yields no dict items, so its gate fails and the call delegates to
the proposer. -/
def get_folder_suggestions_llm (F : List String) (text : String)
    (main co : LlmOutcome) : List Suggestion :=
  match main with
  | LlmOutcome.ok raw =>
    match json_loads (pyStrip (stripFences (pyStrip raw))) with
    | some (Json.arr items) =>
      match minValidate F (items.take 3) with
      | some valid =>
        if 2 ≤ valid.countP (fun s => decide (mkRat 3 5 ≤ s.confidence)) then valid
        else get_folder_creation_suggestions F text co
      | none => get_fallback_suggestions F text co
    | some (Json.str _) => get_folder_creation_suggestions F text co
    | some _ => get_fallback_suggestions F text co
    | none => get_fallback_suggestions F text co
  | _ => get_fallback_suggestions F text co

/-- Filesystem model: files as a map from component paths (relative to the
NAS root) to contents (identified by a `Nat`), plus the list of existing
directories.  `shutil.move` onto an existing destination file overwrites it
(POSIX rename semantics). -/
structure FS where
  files : List String → Option Nat
  dirs : List (List String)

/-- Functional update of one file entry. -/
def setFile (fs : FS) (p : List String) (v : Option Nat) : FS :=
  { fs with files := fun q => if q = p then v else fs.files q }

/-- All non-empty prefixes of a path, shortest first. -/
def ancestorsOf (p : List String) : List (List String) :=
  (List.range p.length).map (fun i => p.take (i + 1))

/-- `Path.mkdir(parents=True, exist_ok=True)`. -/
def mkdirParents (fs : FS) (p : List String) : FS :=
  { fs with dirs := ancestorsOf p ++ fs.dirs }

/-- `Path.mkdir(exist_ok=True)` (the parent directory, `ablage`, always
exists at the call sites modelled here, so the parent-missing failure mode is
not modelled). -/
def mkdirOne (fs : FS) (p : List String) : FS :=
  { fs with dirs := p :: fs.dirs }

/-- One record of `learning_data["decisions"]`. -/
structure DecisionRec where
  timestamp : String
  filename : String
  folder : String
deriving DecidableEq

/-- The persisted learning structure
(`{"decisions": [...], "folder_keywords": {...}}`); the keyword dict is an
insertion-ordered association list, as in Python. -/
structure LearningData where
  decisions : List DecisionRec
  folder_keywords : List (String × List String)

/-- Dict read with default `[]` (models `folder_keywords.get(folder, [])`
after the ensure-key step). -/
def fkGet : List (String × List String) → String → List String
  | [], _ => []
  | (k1, v) :: t, k => if k1 = k then v else fkGet t k

/-- Dict write: replace the first binding of `k`, or append a new one
(Python dict update with insertion order). -/
def fkSet : List (String × List String) → String → List String → List (String × List String)
  | [], k, v => [(k, v)]
  | (k1, v1) :: t, k, v => if k1 = k then (k, v) :: t else (k1, v1) :: fkSet t k v

/-- Keyword tokens of a filename in `_update_learning_data`:
`filename.lower().replace('.pdf', '').replace('.docx', '').split('_')`. -/
def keywordTokens (filename : String) : List String :=
  pySplit (pyReplace (pyReplace ⟨lowerChars filename.data⟩ ".pdf" "") ".docx" "") "_"

/-- The keyword-appending loop of `_update_learning_data`: tokens longer than
3 characters not yet present are appended in order. -/
def addTokens (cur : List String) (toks : List String) : List String :=
  toks.foldl (fun acc tok => if 3 < tok.length ∧ tok ∉ acc then acc ++ [tok] else acc) cur

/-- Python `l[-n:]` (the last `min n (length l)` elements). -/
def lastN (n : Nat) (l : List DecisionRec) : List DecisionRec :=
  (l.reverse.take n).reverse

/-- `DocumentProcessor._update_learning_data`: append the decision, add new
filename tokens to the chosen folder's keyword list (creating the entry if
needed), trim the decision log to the last 100 entries.  The synchronous
`_save_learning_data` write is the identity on the in-memory structure. -/
def update_learning_data (d : LearningData) (ts filename chosen_folder : String) :
    LearningData :=
  let cur := fkGet d.folder_keywords chosen_folder
  { decisions := lastN 100 (d.decisions ++ [⟨ts, filename, chosen_folder⟩]),
    folder_keywords :=
      fkSet d.folder_keywords chosen_folder (addTokens cur (keywordTokens filename)) }

/-- One confirmed decision, as fed to `_update_learning_data`
(the timestamp is `datetime.now().isoformat()`, passed in as a parameter). -/
structure DecisionCall where
  timestamp : String
  filename : String
  folder : String

/-- A sequence of `record_decision` calls applied in order. -/
def record_decisions (init : LearningData) (calls : List DecisionCall) : LearningData :=
  calls.foldl (fun d c => update_learning_data d c.timestamp c.filename c.folder) init

/-- The `DecisionRec` a call appends. -/
def mkDecision (c : DecisionCall) : DecisionRec :=
  ⟨c.timestamp, c.filename, c.folder⟩

/-- The empty learning store (`{"decisions": [], "folder_keywords": {}}`). -/
def emptyLearning : LearningData := ⟨[], []⟩

/-- Python `Path(name).stem` and `.suffix` (CPython: the suffix is `name[i:]`
for the last dot index `i` when `0 < i < len(name) - 1`, else empty). -/
def pyStemSuffix (name : String) : String × String :=
  match rfindDot name.data with
  | some i =>
    if 0 < i ∧ i < name.data.length - 1 then (⟨name.data.take i⟩, ⟨name.data.drop i⟩)
    else (name, "")
  | none => (name, "")

/-- Collision name of `DocumentProcessor.move_file`:
`f"{stem}_{timestamp}{suffix}"`. -/
def suffixedNameDoc (name ts : String) : String :=
  (pyStemSuffix name).1 ++ "_" ++ ts ++ (pyStemSuffix name).2

/-- Collision name of `SimpleDocumentOrganizer.move_file`:
`filename.rsplit('.', 1)` then `f"{name}_{timestamp}.{ext}"` when the
extension is truthy, else `f"{name}_{timestamp}"`. -/
def suffixedNameMin (filename ts : String) : String :=
  match rfindDot filename.data with
  | some i =>
    let nm : String := ⟨filename.data.take i⟩
    let ext : String := ⟨filename.data.drop (i + 1)⟩
    if ext = "" then nm ++ "_" ++ ts else nm ++ "_" ++ ts ++ "." ++ ext
  | none => filename ++ "_" ++ ts

namespace DocumentProcessor

/-- `DocumentProcessor.move_file`: create the target directory, pick the
plain destination name or — when it already exists — the timestamp-suffixed
name (computed once, not re-checked), move the file, update the learning
data.  `ioFail` injects an I/O-level `shutil.move` failure; a missing source
also raises.  The result's third component is `none` when the move raised
(the state then reflects the already-performed `mkdir`). -/
def move_file (fs : FS) (learning : LearningData) (file_path : List String)
    (target_folder ts iso : String) (ioFail : Bool) :
    FS × LearningData × Option (List String) :=
  let target_dir := "ablage" :: pySplit target_folder "/"
  let fs1 := mkdirOne fs target_dir
  let name := file_path.getLastD ""
  let plain := target_dir ++ [name]
  let target_file := if (fs1.files plain).isSome then target_dir ++ [suffixedNameDoc name ts]
                     else plain
  if ioFail then (fs1, learning, none)
  else
    match fs1.files file_path with
    | none => (fs1, learning, none)
    | some c =>
      (setFile (setFile fs1 file_path none) target_file (some c),
       update_learning_data learning iso name target_folder,
       some target_file)

end DocumentProcessor

/-- In-memory state of the full implementation's web app: the filesystem,
the pending registry (`pending_files`, keyed by filename, holding the source
path), the learning store and the cached target-folder list. -/
structure OrgState where
  fs : FS
  pending : String → Option (List String)
  learning : LearningData
  target_folders : List String

/-- Responses of the `/api/move_file` endpoint. -/
inductive ApiResult where
  | notFound
  | badFolder
  | moveError
  | moved (newPath : List String)
deriving DecidableEq

/-- `api_move_file` (full implementation): reject unknown filenames (404) and
unknown target folders (400) before any side effect; otherwise move, and on a
move exception return a 500 error leaving the pending entry (and learning
data) untouched; on success delete the pending entry. -/
def api_move_file (st : OrgState) (filename target_folder ts iso : String)
    (ioFail : Bool) : OrgState × ApiResult :=
  match st.pending filename with
  | none => (st, ApiResult.notFound)
  | some path =>
    if target_folder ∈ st.target_folders then
      match DocumentProcessor.move_file st.fs st.learning path target_folder ts iso ioFail with
      | (fs1, l1, none) => ({ st with fs := fs1, learning := l1 }, ApiResult.moveError)
      | (fs1, l1, some np) =>
        ({ st with fs := fs1, learning := l1,
                   pending := fun n => if n = filename then none else st.pending n },
         ApiResult.moved np)
    else (st, ApiResult.badFolder)

/-- In-memory state of the minimal implementation: filesystem plus the cached
target-folder list (it has no pending registry; the inbox listing plays that
role). -/
structure MinState where
  fs : FS
  target_folders : List String

/-- `SimpleDocumentOrganizer._get_target_folders`: sorted non-hidden
directory names directly under `ablage`. -/
def minGetTargetFolders (fs : FS) : List String :=
  List.insertionSort (fun a b : String => a ≤ b)
    ((fs.dirs.filterMap (fun p =>
      match p with
      | ["ablage", f] => if startsWithCL f.data ['.'] then none else some f
      | _ => none)).dedup)

namespace SimpleDocumentOrganizer

/-- `SimpleDocumentOrganizer.move_file`: no validation of the target folder
and no pending-registry check — the target directory (with parents) is
created unconditionally, the folder cache is refreshed when `is_new_folder`,
the collision-suffixed destination is chosen when the plain name exists, then
`shutil.move` runs (raising, `none`, only when the source is missing). -/
def move_file (st : MinState) (filename target_folder : String)
    (is_new_folder : Bool) (ts : String) : MinState × Option (List String) :=
  let source := ["inbox", filename]
  let target_dir := "ablage" :: pySplit target_folder "/"
  let fs1 := mkdirParents st.fs target_dir
  let tf1 := if is_new_folder then minGetTargetFolders fs1 else st.target_folders
  let plain := target_dir ++ [filename]
  let target_file := if (fs1.files plain).isSome then target_dir ++ [suffixedNameMin filename ts]
                     else plain
  match fs1.files source with
  | none => ({ fs := fs1, target_folders := tf1 }, none)
  | some c =>
    ({ fs := setFile (setFile fs1 source none) target_file (some c), target_folders := tf1 },
     some target_file)

end SimpleDocumentOrganizer

/-- The `text_preview` stored by `InboxHandler.process_new_file`:
`text_content[:300] + "..." if len(text_content) > 300 else text_content`. -/
def text_preview (text_content : String) : String :=
  if 300 < text_content.length then ⟨text_content.data.take 300 ++ "...".data⟩
  else text_content

/-- A model response whose items repeat one folder with confidences below the
0.1 padding level (syntactically valid JSON). -/
def c1CexResponse : String :=
  "[\x7b\"folder\":\"Arbeit\",\"reason\":\"r\",\"confidence\":0.05\x7d,\x7b\"folder\":\"Arbeit\",\"reason\":\"r\",\"confidence\":0.04\x7d]"

/-- A well-formed model response wrapped in markdown code fences. -/
def c2CexResponse : String :=
  "```json[\x7b\"folder\":\"Bank\",\"reason\":\"ok\",\"confidence\":0.9\x7d]```"

/-- Minimal-implementation state with one inbox file and one target folder. -/
def c3State : MinState :=
  { fs := { files := fun p => if p = ["inbox", "a.txt"] then some 7 else none,
            dirs := [["inbox"], ["ablage"], ["ablage", "Bank"]] },
    target_folders := ["Bank"] }

/-- Full-implementation state with one pending file and one target folder. -/
def c4State : OrgState :=
  { fs := { files := fun p => if p = ["inbox", "a.txt"] then some 1 else none,
            dirs := [["inbox"], ["ablage"], ["ablage", "Bank"]] },
    pending := fun n => if n = "a.txt" then some ["inbox", "a.txt"] else none,
    learning := emptyLearning,
    target_folders := ["Bank"] }

/-- Filesystem with two distinct source files bearing the same name and an
empty target folder. -/
def c5DocFS : FS :=
  { files := fun p =>
      if p = ["inbox", "a.txt"] then some 1
      else if p = ["old", "a.txt"] then some 2 else none,
    dirs := [["inbox"], ["old"], ["ablage"], ["ablage", "Bank"]] }

/-- Minimal-implementation state for the collision scenario. -/
def c5MinState : MinState :=
  { fs := { files := fun p => if p = ["inbox", "a.txt"] then some 1 else none,
            dirs := [["inbox"], ["ablage"], ["ablage", "Bank"]] },
    target_folders := ["Bank"] }

/-- Filesystem whose target folder already contains both the plain name and
the timestamp-suffixed variant. -/
def c10DocFS : FS :=
  { files := fun p =>
      if p = ["inbox", "a.txt"] then some 1
      else if p = ["ablage", "Bank", "a.txt"] then some 2
      else if p = ["ablage", "Bank", "a_20250101_120000.txt"] then some 3 else none,
    dirs := [["inbox"], ["ablage"], ["ablage", "Bank"]] }

/-- Minimal-implementation state for the double-collision scenario. -/
def c10MinState : MinState :=
  { fs := c10DocFS, target_folders := ["Bank"] }

set_option maxRecDepth 4000 in
/-- C8 counterexample: for a 301-character extracted text the stored
`text_preview` is 303 characters long (300 kept characters plus the
three-character ellipsis), so it is not at most 300 characters as claimed. -/
theorem c8_counterexample :
    (text_preview ⟨List.replicate 301 'a'⟩).length = 303 ∧
    ¬ (text_preview ⟨List.replicate 301 'a'⟩).length ≤ 300 := by
  decide

/-- C8 (amended): the `text_preview` stored in a pending-registry entry is at
most 303 characters long — the code truncates to 300 characters and then
appends a three-character ellipsis whenever the extracted text exceeds 300
characters. -/
theorem c8_preview_bound (t : String) : (text_preview t).length ≤ 303 := by
  by_cases h : 300 < t.length
  · have he : text_preview t = ⟨t.data.take 300 ++ "...".data⟩ := by
      simp [text_preview, h]
    rw [he]
    show (t.data.take 300 ++ "...".data).length ≤ 303
    rw [List.length_append, List.length_take]
    have h3 : ("...".data).length = 3 := rfl
    have : min 300 t.data.length ≤ 300 := min_le_left _ _
    omega
  · have he : text_preview t = t := by simp [text_preview, h]
    rw [he]
    have : t.length ≤ 300 := by omega
    omega

/-- C9 counterexample: on a preview text matching no content-sniffing rule
the deterministic new-folder fallback returns only 2 proposals, not 3 — the
static top-up provides just two catch-all categories. -/
theorem c9_counterexample :
    (get_default_creation_suggestions "x").length = 2 ∧
    invoiceRule "x" = false ∧ contractRule "x" = false := by
  decide

/-- C9 (amended): every proposal of the deterministic new-folder fallback is
flagged `is_new` with a `folder_path`, and the result has exactly 3 entries
when at least one content-sniffing rule matches the preview text, but only 2
entries when no rule matches (the static top-up holds two categories). -/
theorem c9_default_creation_shape (text : String) :
    (∀ s ∈ get_default_creation_suggestions text,
        s.is_new = true ∧ s.folder_path.isSome = true) ∧
    (get_default_creation_suggestions text).length =
      (if invoiceRule text || contractRule text then 3 else 2) := by
  unfold get_default_creation_suggestions
  cases h1 : invoiceRule text <;> cases h2 : contractRule text <;>
    simp only [h1, h2] <;> decide

lemma self_mem_ancestorsOf (p : List String) (hp : p ≠ []) : p ∈ ancestorsOf p := by
  unfold ancestorsOf
  have hpos : 0 < p.length := List.length_pos.2 hp
  refine List.mem_map.2 ⟨p.length - 1, List.mem_range.2 (by omega), ?_⟩
  have h : p.length - 1 + 1 = p.length := by omega
  rw [h, List.take_length]

/-- C3 counterexample: in the minimal implementation a confirm_move naming a
target folder that is not in the target-folder set is not rejected — the
directory is created and the file is moved. -/
theorem c3_counterexample :
    "Neu" ∉ c3State.target_folders ∧
    (SimpleDocumentOrganizer.move_file c3State "a.txt" "Neu" false "ts").2 =
      some ["ablage", "Neu", "a.txt"] ∧
    (SimpleDocumentOrganizer.move_file c3State "a.txt" "Neu" false "ts").1.fs.files
      ["ablage", "Neu", "a.txt"] = some 7 ∧
    (SimpleDocumentOrganizer.move_file c3State "a.txt" "Neu" false "ts").1.fs.files
      ["inbox", "a.txt"] = none ∧
    ["ablage", "Neu"] ∈ (SimpleDocumentOrganizer.move_file c3State "a.txt" "Neu" false "ts").1.fs.dirs := by
  refine ⟨by decide, rfl, rfl, rfl, by decide⟩

/-- C3 (amended): in the full implementation, a confirm_move whose filename
is not pending, or whose target folder is not in the target-folder set, is
rejected with an error and leaves the state untouched; the minimal
implementation performs no such validation — whenever the named source file
exists in the inbox the move succeeds for an arbitrary target folder, and the
target directory is created unconditionally (a side effect that occurs even
when the move then fails on a missing source). -/
theorem c3_invalid_requests (st : OrgState) (mst : MinState)
    (filename target_folder ts iso : String) (ioFail : Bool) :
    (st.pending filename = none →
      api_move_file st filename target_folder ts iso ioFail = (st, ApiResult.notFound)) ∧
    (∀ p, st.pending filename = some p → target_folder ∉ st.target_folders →
      api_move_file st filename target_folder ts iso ioFail = (st, ApiResult.badFolder)) ∧
    ((mst.fs.files ["inbox", filename]).isSome = true →
      (SimpleDocumentOrganizer.move_file mst filename target_folder false ts).2 ≠ none) ∧
    ("ablage" :: pySplit target_folder "/") ∈
      (SimpleDocumentOrganizer.move_file mst filename target_folder false ts).1.fs.dirs := by
  refine ⟨?_, ?_, ?_, ?_⟩
  · intro h
    simp [api_move_file, h]
  · intro p hp hnf
    simp [api_move_file, hp, hnf]
  · intro h
    obtain ⟨c, hc⟩ := Option.isSome_iff_exists.1 h
    simp [SimpleDocumentOrganizer.move_file, mkdirParents, hc]
  · have hmem := self_mem_ancestorsOf ("ablage" :: pySplit target_folder "/") (by simp)
    cases hc : mkdirParents mst.fs ("ablage" :: pySplit target_folder "/") |>.files
        ["inbox", filename] with
    | none =>
      simp only [SimpleDocumentOrganizer.move_file, hc]
      exact List.mem_append_left _ hmem
    | some c =>
      simp only [SimpleDocumentOrganizer.move_file, hc, setFile]
      exact List.mem_append_left _ hmem

/-- C3 witness: the rejection branches of the full implementation and the
no-validation behavior of the minimal implementation at a concrete state. -/
theorem c3_invalid_requests_witness :
    api_move_file c4State "missing.txt" "Bank" "ts" "iso" false = (c4State, ApiResult.notFound) ∧
    api_move_file c4State "a.txt" "Neu" "ts" "iso" false = (c4State, ApiResult.badFolder) ∧
    (SimpleDocumentOrganizer.move_file c3State "a.txt" "Unbekannt" false "ts").2 ≠ none := by
  have h := c3_invalid_requests c4State c3State "missing.txt" "Bank" "ts" "iso" false
  have h2 := c3_invalid_requests c4State c3State "a.txt" "Neu" "ts" "iso" false
  have h3 := c3_invalid_requests c4State c3State "a.txt" "Unbekannt" "ts" "iso" false
  exact ⟨h.1 rfl, h2.2.1 ["inbox", "a.txt"] rfl (by decide), h3.2.2.1 rfl⟩

/-- C4 (confirmed): when the filesystem relocation inside a confirmed move
raises an I/O-level failure, the endpoint returns an explicit error response
and the pending-registry entry (and the learning store) are left intact, so
the move can be retried. -/
theorem c4_move_failure_preserves_pending (st : OrgState)
    (filename target_folder ts iso : String) (p : List String)
    (hp : st.pending filename = some p) (hf : target_folder ∈ st.target_folders) :
    (api_move_file st filename target_folder ts iso true).2 = ApiResult.moveError ∧
    (api_move_file st filename target_folder ts iso true).1.pending = st.pending ∧
    (api_move_file st filename target_folder ts iso true).1.learning = st.learning := by
  simp [api_move_file, hp, hf, DocumentProcessor.move_file]

/-- C4 witness: the failure branch at a concrete state. -/
theorem c4_move_failure_preserves_pending_witness :
    (api_move_file c4State "a.txt" "Bank" "ts" "iso" true).2 = ApiResult.moveError ∧
    (api_move_file c4State "a.txt" "Bank" "ts" "iso" true).1.pending = c4State.pending := by
  have h := c4_move_failure_preserves_pending c4State "a.txt" "Bank" "ts" "iso"
    ["inbox", "a.txt"] rfl (by decide)
  exact ⟨h.1, h.2.1⟩

/-- C10 (confirmed, implicit): both move implementations compute the
timestamp-suffixed destination once and never re-check it — when the target
folder already contains the plain filename and the same suffixed variant, the
relocation targets the existing suffixed file and silently overwrites its
contents. -/
theorem c10_double_collision_overwrites :
    (∀ (fs : FS) (ld : LearningData) (src : List String) (folder n ts iso : String)
       (a b c : Nat),
      fs.files (("ablage" :: pySplit folder "/") ++ [n]) = some a →
      fs.files (("ablage" :: pySplit folder "/") ++ [suffixedNameDoc n ts]) = some b →
      fs.files src = some c →
      src.getLastD "" = n →
      (DocumentProcessor.move_file fs ld src folder ts iso false).2.2 =
        some (("ablage" :: pySplit folder "/") ++ [suffixedNameDoc n ts]) ∧
      (DocumentProcessor.move_file fs ld src folder ts iso false).1.files
        (("ablage" :: pySplit folder "/") ++ [suffixedNameDoc n ts]) = some c) ∧
    (∀ (mst : MinState) (filename folder ts : String) (a b c : Nat),
      mst.fs.files (("ablage" :: pySplit folder "/") ++ [filename]) = some a →
      mst.fs.files (("ablage" :: pySplit folder "/") ++ [suffixedNameMin filename ts]) = some b →
      mst.fs.files ["inbox", filename] = some c →
      (SimpleDocumentOrganizer.move_file mst filename folder false ts).2 =
        some (("ablage" :: pySplit folder "/") ++ [suffixedNameMin filename ts]) ∧
      (SimpleDocumentOrganizer.move_file mst filename folder false ts).1.fs.files
        (("ablage" :: pySplit folder "/") ++ [suffixedNameMin filename ts]) = some c) := by
  constructor
  · intro fs ld src folder n ts iso a b c hplain hsuf hsrc hname
    simp only [List.cons_append] at hplain hsuf ⊢
    simp only [List.getLastD_eq_getLast?] at hname
    simp [DocumentProcessor.move_file, mkdirOne, hname, hplain, hsrc, setFile]
  · intro mst filename folder ts a b c hplain hsuf hsrc
    simp only [List.cons_append] at hplain hsuf ⊢
    simp [SimpleDocumentOrganizer.move_file, mkdirParents, hplain, hsrc, setFile]

/-- C10 witness: the overwrite at a concrete filesystem in which both the
plain and suffixed names exist. -/
theorem c10_double_collision_overwrites_witness :
    (DocumentProcessor.move_file c10DocFS emptyLearning ["inbox", "a.txt"] "Bank"
        "20250101_120000" "iso" false).1.files
      ["ablage", "Bank", "a_20250101_120000.txt"] = some 1 ∧
    (SimpleDocumentOrganizer.move_file c10MinState "a.txt" "Bank" false
        "20250101_120000").1.fs.files
      ["ablage", "Bank", "a_20250101_120000.txt"] = some 1 := by
  have h1 := (c10_double_collision_overwrites.1 c10DocFS emptyLearning ["inbox", "a.txt"]
    "Bank" "a.txt" "20250101_120000" "iso" 2 3 1 rfl rfl rfl rfl)
  have h2 := (c10_double_collision_overwrites.2 c10MinState "a.txt" "Bank"
    "20250101_120000" 2 3 1 rfl rfl rfl)
  exact ⟨h1.2, h2.2⟩

/-- C7 (confirmed): in the minimal implementation, when after validation
fewer than 2 suggestions reach the quality-gate threshold (0.6 on the LLM
path, 0.5 on the keyword-fallback path), the call does not return the
low-confidence existing-folder suggestions but delegates to the new-folder
proposer. -/
theorem c7_quality_gate (F : List String) (text : String) (co : LlmOutcome) :
    (∀ (raw : String) (items : List Json) (valid : List Suggestion),
      json_loads (pyStrip (stripFences (pyStrip raw))) = some (Json.arr items) →
      minValidate F (items.take 3) = some valid →
      valid.countP (fun s => decide (mkRat 3 5 ≤ s.confidence)) < 2 →
      get_folder_suggestions_llm F text (LlmOutcome.ok raw) co =
        get_folder_creation_suggestions F text co) ∧
    ((minFallbackAssembled F text).countP (fun x => decide (mkRat 1 2 ≤ x.confidence)) < 2 →
      get_fallback_suggestions F text co = get_folder_creation_suggestions F text co) := by
  constructor
  · intro raw items valid hdec hval hlt
    simp only [get_folder_suggestions_llm, hdec, hval]
    rw [if_neg (by omega)]
  · intro hlt
    simp only [get_fallback_suggestions]
    rw [if_neg (by omega)]

/-- C7 witness: a concrete decoded response with two validated suggestions of
confidence 0.3 fails the 0.6 gate, and the keyword fallback on a keyword-free
text fails the 0.5 gate; both delegate to the proposer. -/
theorem c7_quality_gate_witness :
    get_folder_suggestions_llm ["Bank", "Rechnungen", "Sonstiges"] "zzz"
        (LlmOutcome.ok "[\x7b\"folder\":\"Bank\",\"confidence\":0.3\x7d,\x7b\"folder\":\"Rechnungen\",\"confidence\":0.3\x7d]")
        LlmOutcome.failure =
      get_folder_creation_suggestions ["Bank", "Rechnungen", "Sonstiges"] "zzz"
        LlmOutcome.failure ∧
    get_fallback_suggestions ["Bank", "Rechnungen", "Sonstiges"] "zzz" LlmOutcome.failure =
      get_folder_creation_suggestions ["Bank", "Rechnungen", "Sonstiges"] "zzz"
        LlmOutcome.failure := by
  have h := c7_quality_gate ["Bank", "Rechnungen", "Sonstiges"] "zzz" LlmOutcome.failure
  refine ⟨h.1 _ [Json.obj [("folder", Json.str "Bank"), ("confidence", Json.num (mkRat 3 10))],
      Json.obj [("folder", Json.str "Rechnungen"), ("confidence", Json.num (mkRat 3 10))]]
    [{ folder := "Bank", reason := "KI-Vorschlag", confidence := mkRat 3 10 },
     { folder := "Rechnungen", reason := "KI-Vorschlag", confidence := mkRat 3 10 }]
    rfl rfl (by decide), h.2 (by decide)⟩

/-- C2 counterexample: a well-formed model response wrapped in markdown code
fences is repaired and parsed — the result keeps the model's ranked folder
and is not the keyword classifier's result for the preview text, contradicting
the claim that fence-wrapped responses fall back to the classifier. -/
theorem c2_counterexample :
    get_folder_suggestions ["Bank", "Rechnungen", "Sonstiges"] "rechnung"
        (LlmOutcome.ok c2CexResponse) =
      [{ folder := "Bank", reason := "ok", confidence := mkRat 9 10 },
       { folder := "Rechnungen", reason := "Allgemeine Zuordnung", confidence := mkRat 1 10 },
       { folder := "Sonstiges", reason := "Allgemeine Zuordnung", confidence := mkRat 1 10 }] ∧
    get_folder_suggestions ["Bank", "Rechnungen", "Sonstiges"] "rechnung"
        (LlmOutcome.ok c2CexResponse) ≠
      fallback_suggestions ["Bank", "Rechnungen", "Sonstiges"] "rechnung" := by
  decide

/-- C2 (amended): the suggestion operation is total over all modelled
response shapes (no exception escapes): transport-level failures (non-200
status, raised exception) fall back to the keyword classifier applied to the
document's preview text; a response that fails JSON decoding after
fence-stripping falls back to the classifier applied to the *empty string*
(not the preview text); a decoded array whose items all fail validation
(e.g. every item references an unknown folder) yields the padded
available-folder list, without consulting the classifier. -/
theorem c2_malformed_response_fallbacks (F : List String) (hF : F ≠ []) (text : String) :
    (get_folder_suggestions F text LlmOutcome.failure = fallback_suggestions F text) ∧
    (∀ code, get_folder_suggestions F text (LlmOutcome.httpError code) =
      fallback_suggestions F text) ∧
    (∀ response, json_loads (pyStrip (stripFences (pyStrip response))) = none →
      get_folder_suggestions F text (LlmOutcome.ok response) = fallback_suggestions F "") ∧
    (∀ response items,
      json_loads (pyStrip (stripFences (pyStrip response))) = some (Json.arr items) →
      (∀ j ∈ items, validItem F j = none) →
      get_folder_suggestions F text (LlmOutcome.ok response) = (padA F 3 []).take 3) := by
  refine ⟨?_, ?_, ?_, ?_⟩
  · simp [get_folder_suggestions, hF]
  · intro code
    simp [get_folder_suggestions, hF]
  · intro response h
    simp [get_folder_suggestions, hF, parse_llm_response, h]
  · intro response items hdec hnone
    have hv : validA F items = [] := List.filterMap_eq_nil_iff.2 hnone
    simp [get_folder_suggestions, hF, parse_llm_response, hdec, hv, sortByConfDesc]

/-- C2 witness: the fallback behaviors at concrete inputs — an unreachable
model, a non-JSON response (falling back with the empty string), and an array
naming only unknown folders (padded, no classifier). -/
theorem c2_malformed_response_fallbacks_witness :
    get_folder_suggestions ["Bank", "Rechnungen", "Sonstiges"] "rechnung" LlmOutcome.failure =
      fallback_suggestions ["Bank", "Rechnungen", "Sonstiges"] "rechnung" ∧
    get_folder_suggestions ["Bank", "Rechnungen", "Sonstiges"] "rechnung"
        (LlmOutcome.ok "keine antwort") =
      fallback_suggestions ["Bank", "Rechnungen", "Sonstiges"] "" ∧
    get_folder_suggestions ["Bank", "Rechnungen", "Sonstiges"] "rechnung"
        (LlmOutcome.ok "[\x7b\"folder\":\"Falsch\",\"reason\":\"r\",\"confidence\":0.9\x7d]") =
      (padA ["Bank", "Rechnungen", "Sonstiges"] 3 []).take 3 := by
  have h := c2_malformed_response_fallbacks ["Bank", "Rechnungen", "Sonstiges"]
    (by decide) "rechnung"
  refine ⟨h.1, h.2.2.1 "keine antwort" rfl, h.2.2.2 _
    [Json.obj [("folder", Json.str "Falsch"), ("reason", Json.str "r"),
      ("confidence", Json.num (mkRat 9 10))]] rfl (by decide)⟩

lemma strLen_mk (l : List Char) : (String.mk l).length = l.length := rfl

lemma strLen_append (s t : String) : (s ++ t).length = s.length + t.length := by
  show (s.data ++ t.data).length = s.data.length + t.data.length
  exact List.length_append s.data t.data

lemma strLen_pos_of_ne_empty (s : String) (h : s ≠ "") : 0 < s.length := by
  cases s with
  | mk l =>
    cases l with
    | nil => exact absurd rfl h
    | cons c t => simp [strLen_mk]

lemma rfindDot_lt_length : ∀ (l : List Char) (i : Nat), rfindDot l = some i → i < l.length := by
  intro l
  induction l with
  | nil => intro i h; simp [rfindDot] at h
  | cons c t ih =>
    intro i h
    cases ht : rfindDot t with
    | some j =>
      have he : rfindDot (c :: t) = some (j + 1) := by
        simp [rfindDot, ht]
      rw [he] at h
      injection h with h
      have hj := ih j ht
      simp only [List.length_cons]
      omega
    | none =>
      by_cases hc : c == '.'
      · have he : rfindDot (c :: t) = some 0 := by
          simp [rfindDot, ht, hc]
        rw [he] at h
        injection h with h
        simp only [List.length_cons]
        omega
      · have he : rfindDot (c :: t) = none := by
          simp [rfindDot, ht, hc]
        rw [he] at h
        exact absurd h (by simp)

lemma pyStemSuffix_length (n : String) :
    (pyStemSuffix n).1.length + (pyStemSuffix n).2.length = n.length := by
  unfold pyStemSuffix
  cases h : rfindDot n.data with
  | none => simp
  | some i =>
    have hi := rfindDot_lt_length n.data i h
    simp only []
    by_cases hc : 0 < i ∧ i < n.data.length - 1
    · rw [if_pos hc]
      simp only [strLen_mk, List.length_take, List.length_drop]
      have hn : n.length = n.data.length := rfl
      omega
    · rw [if_neg hc]
      simp

lemma suffixedNameDoc_length (n ts : String) :
    (suffixedNameDoc n ts).length = n.length + 1 + ts.length := by
  unfold suffixedNameDoc
  simp only [strLen_append]
  have := pyStemSuffix_length n
  have h1 : ("_" : String).length = 1 := rfl
  omega

lemma suffixedNameDoc_ne (n ts : String) (hts : ts ≠ "") : n ≠ suffixedNameDoc n ts := by
  intro h
  have hl := congrArg String.length h
  rw [suffixedNameDoc_length] at hl
  have := strLen_pos_of_ne_empty ts hts
  omega

lemma suffixedNameMin_length_gt (f ts : String) (hts : ts ≠ "") :
    f.length < (suffixedNameMin f ts).length := by
  have hpos := strLen_pos_of_ne_empty ts hts
  have hf : f.length = f.data.length := rfl
  cases h : rfindDot f.data with
  | none =>
    have he : suffixedNameMin f ts = f ++ "_" ++ ts := by
      unfold suffixedNameMin
      rw [h]
    rw [he]
    simp only [strLen_append]
    have h1 : ("_" : String).length = 1 := rfl
    omega
  | some i =>
    have hi := rfindDot_lt_length f.data i h
    by_cases hext : (⟨f.data.drop (i + 1)⟩ : String) = ""
    · have he : suffixedNameMin f ts = (⟨f.data.take i⟩ : String) ++ "_" ++ ts := by
        unfold suffixedNameMin
        rw [h]
        simp only []
        rw [if_pos hext]
      have hd : f.data.drop (i + 1) = [] := congrArg String.data hext
      have hdl : f.data.length - (i + 1) = 0 := by
        simpa using congrArg List.length hd
      rw [he]
      simp only [strLen_append, strLen_mk, List.length_take]
      have h1 : ("_" : String).length = 1 := rfl
      omega
    · have he : suffixedNameMin f ts =
          (⟨f.data.take i⟩ : String) ++ "_" ++ ts ++ "." ++ (⟨f.data.drop (i + 1)⟩ : String) := by
        unfold suffixedNameMin
        rw [h]
        simp only []
        rw [if_neg hext]
      rw [he]
      simp only [strLen_append, strLen_mk, List.length_take, List.length_drop]
      have h1 : ("_" : String).length = 1 := rfl
      have h2 : ("." : String).length = 1 := rfl
      omega

lemma suffixedNameMin_ne (f ts : String) (hts : ts ≠ "") : f ≠ suffixedNameMin f ts := by
  intro h
  have hl := congrArg String.length h
  have := suffixedNameMin_length_gt f ts hts
  omega

lemma doc_move_plain (fs : FS) (ld : LearningData) (p : List String)
    (folder n ts iso : String) (c : Nat)
    (hsrc : fs.files p = some c) (hn : p.getLastD "" = n)
    (hplain : fs.files (("ablage" :: pySplit folder "/") ++ [n]) = none) :
    DocumentProcessor.move_file fs ld p folder ts iso false =
      (setFile (setFile (mkdirOne fs ("ablage" :: pySplit folder "/")) p none)
         (("ablage" :: pySplit folder "/") ++ [n]) (some c),
       update_learning_data ld iso n folder,
       some (("ablage" :: pySplit folder "/") ++ [n])) := by
  simp only [List.cons_append] at hplain ⊢
  simp only [List.getLastD_eq_getLast?] at hn
  simp [DocumentProcessor.move_file, mkdirOne, hn, hplain, hsrc, setFile]

lemma doc_move_suffixed (fs : FS) (ld : LearningData) (p : List String)
    (folder n ts iso : String) (c a : Nat)
    (hsrc : fs.files p = some c) (hn : p.getLastD "" = n)
    (hplain : fs.files (("ablage" :: pySplit folder "/") ++ [n]) = some a) :
    DocumentProcessor.move_file fs ld p folder ts iso false =
      (setFile (setFile (mkdirOne fs ("ablage" :: pySplit folder "/")) p none)
         (("ablage" :: pySplit folder "/") ++ [suffixedNameDoc n ts]) (some c),
       update_learning_data ld iso n folder,
       some (("ablage" :: pySplit folder "/") ++ [suffixedNameDoc n ts])) := by
  simp only [List.cons_append] at hplain ⊢
  simp only [List.getLastD_eq_getLast?] at hn
  simp [DocumentProcessor.move_file, mkdirOne, hn, hplain, hsrc, setFile]

lemma min_move_plain (mst : MinState) (filename folder ts : String) (c : Nat)
    (hsrc : mst.fs.files ["inbox", filename] = some c)
    (hplain : mst.fs.files (("ablage" :: pySplit folder "/") ++ [filename]) = none) :
    SimpleDocumentOrganizer.move_file mst filename folder false ts =
      ({ fs := setFile (setFile (mkdirParents mst.fs ("ablage" :: pySplit folder "/"))
             ["inbox", filename] none)
             (("ablage" :: pySplit folder "/") ++ [filename]) (some c),
         target_folders := mst.target_folders },
       some (("ablage" :: pySplit folder "/") ++ [filename])) := by
  simp only [List.cons_append] at hplain ⊢
  simp [SimpleDocumentOrganizer.move_file, mkdirParents, hplain, hsrc, setFile]

lemma min_move_suffixed (mst : MinState) (filename folder ts : String) (c a : Nat)
    (hsrc : mst.fs.files ["inbox", filename] = some c)
    (hplain : mst.fs.files (("ablage" :: pySplit folder "/") ++ [filename]) = some a) :
    SimpleDocumentOrganizer.move_file mst filename folder false ts =
      ({ fs := setFile (setFile (mkdirParents mst.fs ("ablage" :: pySplit folder "/"))
             ["inbox", filename] none)
             (("ablage" :: pySplit folder "/") ++ [suffixedNameMin filename ts]) (some c),
         target_folders := mst.target_folders },
       some (("ablage" :: pySplit folder "/") ++ [suffixedNameMin filename ts])) := by
  simp only [List.cons_append] at hplain ⊢
  simp [SimpleDocumentOrganizer.move_file, mkdirParents, hplain, hsrc, setFile]

lemma concat_ne_of_last_ne (td : List String) (x y : String) (h : x ≠ y) :
    td ++ [x] ≠ td ++ [y] := by
  intro he
  have := congrArg (fun l => l.getLastD "") he
  simp only [List.getLastD_concat] at this
  exact h this

/-- C5 (confirmed): in both implementations, moving two distinct source files
bearing the same filename into the same target folder with the same timestamp
(two calls within the same second), the target initially containing neither
the plain name nor the suffixed variant, produces two distinct destination
files — the first move lands on the plain name, the second resolves the
collision onto the timestamp-suffixed name, which did not exist before the
second move, so neither move overwrites the other's destination. -/
theorem c5_same_second_collision_safe :
    (∀ (fs : FS) (ld : LearningData) (p1 p2 : List String) (c1 c2 : Nat)
       (folder n ts iso : String),
      fs.files p1 = some c1 → fs.files p2 = some c2 → p1 ≠ p2 →
      p1.getLastD "" = n → p2.getLastD "" = n → ts ≠ "" →
      fs.files (("ablage" :: pySplit folder "/") ++ [n]) = none →
      fs.files (("ablage" :: pySplit folder "/") ++ [suffixedNameDoc n ts]) = none →
      (DocumentProcessor.move_file fs ld p1 folder ts iso false).2.2 =
        some (("ablage" :: pySplit folder "/") ++ [n]) ∧
      (DocumentProcessor.move_file fs ld p1 folder ts iso false).1.files
        (("ablage" :: pySplit folder "/") ++ [suffixedNameDoc n ts]) = none ∧
      ("ablage" :: pySplit folder "/") ++ [n] ≠
        ("ablage" :: pySplit folder "/") ++ [suffixedNameDoc n ts] ∧
      (DocumentProcessor.move_file (DocumentProcessor.move_file fs ld p1 folder ts iso false).1
          (DocumentProcessor.move_file fs ld p1 folder ts iso false).2.1
          p2 folder ts iso false).2.2 =
        some (("ablage" :: pySplit folder "/") ++ [suffixedNameDoc n ts]) ∧
      (DocumentProcessor.move_file (DocumentProcessor.move_file fs ld p1 folder ts iso false).1
          (DocumentProcessor.move_file fs ld p1 folder ts iso false).2.1
          p2 folder ts iso false).1.files
        (("ablage" :: pySplit folder "/") ++ [n]) = some c1 ∧
      (DocumentProcessor.move_file (DocumentProcessor.move_file fs ld p1 folder ts iso false).1
          (DocumentProcessor.move_file fs ld p1 folder ts iso false).2.1
          p2 folder ts iso false).1.files
        (("ablage" :: pySplit folder "/") ++ [suffixedNameDoc n ts]) = some c2) ∧
    (∀ (mst : MinState) (filename folder ts : String) (c1 c2 : Nat),
      mst.fs.files ["inbox", filename] = some c1 → ts ≠ "" →
      mst.fs.files (("ablage" :: pySplit folder "/") ++ [filename]) = none →
      mst.fs.files (("ablage" :: pySplit folder "/") ++ [suffixedNameMin filename ts]) = none →
      (SimpleDocumentOrganizer.move_file mst filename folder false ts).2 =
        some (("ablage" :: pySplit folder "/") ++ [filename]) ∧
      (SimpleDocumentOrganizer.move_file
          { fs := setFile (SimpleDocumentOrganizer.move_file mst filename folder false ts).1.fs
              ["inbox", filename] (some c2),
            target_folders :=
              (SimpleDocumentOrganizer.move_file mst filename folder false ts).1.target_folders }
          filename folder false ts).2 =
        some (("ablage" :: pySplit folder "/") ++ [suffixedNameMin filename ts]) ∧
      (SimpleDocumentOrganizer.move_file
          { fs := setFile (SimpleDocumentOrganizer.move_file mst filename folder false ts).1.fs
              ["inbox", filename] (some c2),
            target_folders :=
              (SimpleDocumentOrganizer.move_file mst filename folder false ts).1.target_folders }
          filename folder false ts).1.fs.files
        (("ablage" :: pySplit folder "/") ++ [filename]) = some c1 ∧
      (SimpleDocumentOrganizer.move_file
          { fs := setFile (SimpleDocumentOrganizer.move_file mst filename folder false ts).1.fs
              ["inbox", filename] (some c2),
            target_folders :=
              (SimpleDocumentOrganizer.move_file mst filename folder false ts).1.target_folders }
          filename folder false ts).1.fs.files
        (("ablage" :: pySplit folder "/") ++ [suffixedNameMin filename ts]) = some c2) := by
  constructor
  · intro fs ld p1 p2 c1 c2 folder n ts iso h1 h2 hne hn1 hn2 hts hplain hsuf
    have hps : ("ablage" :: pySplit folder "/") ++ [n] ≠
        ("ablage" :: pySplit folder "/") ++ [suffixedNameDoc n ts] :=
      concat_ne_of_last_ne _ _ _ (suffixedNameDoc_ne n ts hts)
    have hm1 := doc_move_plain fs ld p1 folder n ts iso c1 h1 hn1 hplain
    rw [hm1]
    have hp2plain : p2 ≠ ("ablage" :: pySplit folder "/") ++ [n] := by
      intro h
      rw [h, hplain] at h2
      exact absurd h2 (by simp)
    have hf1suf : (setFile (setFile (mkdirOne fs ("ablage" :: pySplit folder "/")) p1 none)
        (("ablage" :: pySplit folder "/") ++ [n]) (some c1)).files
        (("ablage" :: pySplit folder "/") ++ [suffixedNameDoc n ts]) = none := by
      simp only [setFile, mkdirOne]
      rw [if_neg (Ne.symm hps)]
      by_cases hsp : ("ablage" :: pySplit folder "/") ++ [suffixedNameDoc n ts] = p1
      · rw [if_pos hsp]
      · rw [if_neg hsp]
        exact hsuf
    have hf1p2 : (setFile (setFile (mkdirOne fs ("ablage" :: pySplit folder "/")) p1 none)
        (("ablage" :: pySplit folder "/") ++ [n]) (some c1)).files p2 = some c2 := by
      simp only [setFile, mkdirOne]
      rw [if_neg hp2plain, if_neg (Ne.symm hne)]
      exact h2
    have hf1plain : (setFile (setFile (mkdirOne fs ("ablage" :: pySplit folder "/")) p1 none)
        (("ablage" :: pySplit folder "/") ++ [n]) (some c1)).files
        (("ablage" :: pySplit folder "/") ++ [n]) = some c1 := by
      simp [setFile]
    have hm2 := doc_move_suffixed
      (setFile (setFile (mkdirOne fs ("ablage" :: pySplit folder "/")) p1 none)
        (("ablage" :: pySplit folder "/") ++ [n]) (some c1))
      (update_learning_data ld iso n folder) p2 folder n ts iso c2 c1 hf1p2 hn2 hf1plain
    rw [hm2]
    refine ⟨rfl, hf1suf, hps, rfl, ?_, ?_⟩
    · simp only [setFile]
      rw [if_neg hps, if_neg (Ne.symm hp2plain)]
      exact hf1plain
    · simp [setFile]
  · intro mst filename folder ts c1 c2 h1 hts hplain hsuf
    have hlast : filename ≠ suffixedNameMin filename ts := suffixedNameMin_ne filename ts hts
    have hps : ("ablage" :: pySplit folder "/") ++ [filename] ≠
        ("ablage" :: pySplit folder "/") ++ [suffixedNameMin filename ts] :=
      concat_ne_of_last_ne _ _ _ hlast
    have hinboxplain : (["inbox", filename] : List String) ≠
        ("ablage" :: pySplit folder "/") ++ [filename] := by
      intro h
      rw [h, hplain] at h1
      exact absurd h1 (by simp)
    have hinboxsuf : (["inbox", filename] : List String) ≠
        ("ablage" :: pySplit folder "/") ++ [suffixedNameMin filename ts] := by
      intro h
      rw [h, hsuf] at h1
      exact absurd h1 (by simp)
    have hm1 := min_move_plain mst filename folder ts c1 h1 hplain
    rw [hm1]
    have hst2plain : (setFile (setFile (setFile (mkdirParents mst.fs
          ("ablage" :: pySplit folder "/")) ["inbox", filename] none)
          (("ablage" :: pySplit folder "/") ++ [filename]) (some c1))
          ["inbox", filename] (some c2)).files
        (("ablage" :: pySplit folder "/") ++ [filename]) = some c1 := by
      simp only [setFile]
      rw [if_neg (Ne.symm hinboxplain)]
      simp
    have hst2src : (setFile (setFile (setFile (mkdirParents mst.fs
          ("ablage" :: pySplit folder "/")) ["inbox", filename] none)
          (("ablage" :: pySplit folder "/") ++ [filename]) (some c1))
          ["inbox", filename] (some c2)).files ["inbox", filename] = some c2 := by
      simp [setFile]
    have hm2 := min_move_suffixed
      { fs := setFile (setFile (setFile (mkdirParents mst.fs ("ablage" :: pySplit folder "/"))
          ["inbox", filename] none)
          (("ablage" :: pySplit folder "/") ++ [filename]) (some c1))
          ["inbox", filename] (some c2),
        target_folders := mst.target_folders }
      filename folder ts c2 c1 hst2src hst2plain
    rw [hm2]
    refine ⟨rfl, rfl, ?_, ?_⟩
    · simp only [setFile]
      rw [if_neg hps, if_neg (Ne.symm hinboxplain)]
      exact hst2plain
    · simp [setFile]

/-- C5 witness: the two same-second moves at a concrete filesystem, for both
implementations. -/
theorem c5_same_second_collision_safe_witness :
    (DocumentProcessor.move_file
        (DocumentProcessor.move_file c5DocFS emptyLearning ["inbox", "a.txt"] "Bank"
          "20250101_120000" "iso" false).1
        (DocumentProcessor.move_file c5DocFS emptyLearning ["inbox", "a.txt"] "Bank"
          "20250101_120000" "iso" false).2.1
        ["old", "a.txt"] "Bank" "20250101_120000" "iso" false).1.files
      ["ablage", "Bank", "a.txt"] = some 1 ∧
    (DocumentProcessor.move_file
        (DocumentProcessor.move_file c5DocFS emptyLearning ["inbox", "a.txt"] "Bank"
          "20250101_120000" "iso" false).1
        (DocumentProcessor.move_file c5DocFS emptyLearning ["inbox", "a.txt"] "Bank"
          "20250101_120000" "iso" false).2.1
        ["old", "a.txt"] "Bank" "20250101_120000" "iso" false).1.files
      ["ablage", "Bank", "a_20250101_120000.txt"] = some 2 ∧
    (SimpleDocumentOrganizer.move_file
        { fs := setFile (SimpleDocumentOrganizer.move_file c5MinState "a.txt" "Bank" false
              "20250101_120000").1.fs ["inbox", "a.txt"] (some 2),
          target_folders := (SimpleDocumentOrganizer.move_file c5MinState "a.txt" "Bank" false
              "20250101_120000").1.target_folders }
        "a.txt" "Bank" false "20250101_120000").1.fs.files
      ["ablage", "Bank", "a_20250101_120000.txt"] = some 2 := by
  have h := c5_same_second_collision_safe.1 c5DocFS emptyLearning ["inbox", "a.txt"]
    ["old", "a.txt"] 1 2 "Bank" "a.txt" "20250101_120000" "iso"
    rfl rfl (by decide) rfl rfl (by decide) rfl rfl
  have h2 := c5_same_second_collision_safe.2 c5MinState "a.txt" "Bank" "20250101_120000" 1 2
    rfl (by decide) rfl rfl
  exact ⟨h.2.2.2.2.1, h.2.2.2.2.2, h2.2.2.2⟩

lemma lastN_length_le (n : Nat) (l : List DecisionRec) : (lastN n l).length ≤ n := by
  simp only [lastN, List.length_reverse, List.length_take]
  omega

lemma lastN_of_le (n : Nat) (l : List DecisionRec) (h : l.length ≤ n) : lastN n l = l := by
  unfold lastN
  rw [List.take_of_length_le (by simpa using h), List.reverse_reverse]

lemma lastN_idem_append (n : Nat) (a b : List DecisionRec) :
    lastN n (lastN n a ++ b) = lastN n (a ++ b) := by
  unfold lastN
  rw [List.reverse_append, List.reverse_reverse, List.reverse_append]
  congr 1
  rw [List.take_append_eq_append_take, List.take_append_eq_append_take, List.take_take,
    min_eq_left (Nat.sub_le n _)]

lemma update_decisions_eq (d : LearningData) (ts f fo : String) :
    (update_learning_data d ts f fo).decisions = lastN 100 (d.decisions ++ [⟨ts, f, fo⟩]) := rfl

lemma record_decisions_decisions (calls : List DecisionCall) :
    ∀ (init : LearningData), init.decisions.length ≤ 100 →
      (record_decisions init calls).decisions =
        lastN 100 (init.decisions ++ calls.map mkDecision) := by
  induction calls with
  | nil =>
    intro init h
    simp only [record_decisions, List.foldl_nil, List.map_nil, List.append_nil]
    exact (lastN_of_le _ _ h).symm
  | cons c cs ih =>
    intro init h
    have hstep : record_decisions init (c :: cs) =
        record_decisions (update_learning_data init c.timestamp c.filename c.folder) cs := rfl
    rw [hstep, ih _ (by rw [update_decisions_eq]; exact lastN_length_le _ _)]
    rw [update_decisions_eq, lastN_idem_append, List.append_assoc]
    rfl

lemma fkGet_fkSet_self (l : List (String × List String)) (k : String) (v : List String) :
    fkGet (fkSet l k v) k = v := by
  induction l with
  | nil => simp [fkSet, fkGet]
  | cons p t ih =>
    by_cases h : p.1 = k
    · simp [fkSet, h, fkGet]
    · simp [fkSet, h, fkGet, ih]

lemma fkGet_fkSet_ne (l : List (String × List String)) (k : String) (v : List String)
    (k2 : String) (h : k ≠ k2) : fkGet (fkSet l k v) k2 = fkGet l k2 := by
  induction l with
  | nil => simp [fkSet, fkGet, h]
  | cons p t ih =>
    by_cases hp : p.1 = k
    · simp [fkSet, hp, fkGet, h]
    · simp [fkSet, hp, fkGet, ih]

lemma mem_addTokens (cur toks : List String) (x : String) (h : x ∈ cur) :
    x ∈ addTokens cur toks := by
  induction toks generalizing cur with
  | nil => simpa [addTokens]
  | cons t ts ih =>
    show x ∈ addTokens cur (t :: ts)
    have hstep : addTokens cur (t :: ts) =
        addTokens (if 3 < t.length ∧ t ∉ cur then cur ++ [t] else cur) ts := rfl
    rw [hstep]
    split
    · exact ih _ (List.mem_append_left _ h)
    · exact ih _ h

lemma mem_addTokens_of_long (cur toks : List String) (tok : String)
    (htok : tok ∈ toks) (hlen : 3 < tok.length) : tok ∈ addTokens cur toks := by
  induction toks generalizing cur with
  | nil => simp at htok
  | cons t ts ih =>
    have hstep : addTokens cur (t :: ts) =
        addTokens (if 3 < t.length ∧ t ∉ cur then cur ++ [t] else cur) ts := rfl
    rcases List.mem_cons.1 htok with heq | hmem
    · subst heq
      rw [hstep]
      by_cases hc : tok ∈ cur
      · split
        · exact mem_addTokens _ _ _ (List.mem_append_left _ hc)
        · exact mem_addTokens _ _ _ hc
      · rw [if_pos ⟨hlen, hc⟩]
        exact mem_addTokens _ _ _ (List.mem_append_right _ (List.mem_singleton.2 rfl))
    · rw [hstep]
      split
      · exact ih _ hmem
      · exact ih _ hmem

lemma fkGet_update_mono (d : LearningData) (ts f fo k : String) (kw : String)
    (h : kw ∈ fkGet d.folder_keywords k) :
    kw ∈ fkGet (update_learning_data d ts f fo).folder_keywords k := by
  unfold update_learning_data
  by_cases hk : fo = k
  · subst hk
    rw [fkGet_fkSet_self]
    exact mem_addTokens _ _ _ h
  · rw [fkGet_fkSet_ne _ _ _ _ hk]
    exact h

lemma fkGet_update_token (d : LearningData) (ts f fo : String) (tok : String)
    (htok : tok ∈ keywordTokens f) (hlen : 3 < tok.length) :
    tok ∈ fkGet (update_learning_data d ts f fo).folder_keywords fo := by
  unfold update_learning_data
  rw [fkGet_fkSet_self]
  exact mem_addTokens_of_long _ _ _ htok hlen

lemma fkGet_record_mono (calls : List DecisionCall) :
    ∀ (init : LearningData) (k kw : String), kw ∈ fkGet init.folder_keywords k →
      kw ∈ fkGet (record_decisions init calls).folder_keywords k := by
  induction calls with
  | nil => intro init k kw h; simpa [record_decisions]
  | cons c cs ih =>
    intro init k kw h
    exact ih _ k kw (fkGet_update_mono init c.timestamp c.filename c.folder k kw h)

lemma tokens_present (calls : List DecisionCall) :
    ∀ (init : LearningData), ∀ c ∈ calls, ∀ tok ∈ keywordTokens c.filename, 3 < tok.length →
      tok ∈ fkGet (record_decisions init calls).folder_keywords c.folder := by
  induction calls with
  | nil => intro init c hc; simp at hc
  | cons d ds ih =>
    intro init c hc tok htok hlen
    rcases List.mem_cons.1 hc with heq | hmem
    · subst heq
      exact fkGet_record_mono ds _ _ _
        (fkGet_update_token init c.timestamp c.filename c.folder tok htok hlen)
    · exact ih _ c hmem tok htok hlen

lemma lastN_drop_one (l : List DecisionRec) (h : l.length = 101) : lastN 100 l = l.drop 1 := by
  cases l with
  | nil => simp at h
  | cons x t =>
    have ht : t.length = 100 := by simpa using h
    unfold lastN
    rw [List.reverse_cons]
    rw [show (100 : Nat) = t.reverse.length from by simp [ht]]
    rw [List.take_left]
    simp

/-- C6 (confirmed): the decision log always equals the last 100 of all
appended records (oldest evicted first; in particular, starting empty, after
101 calls the first record is gone and the length is 100), while the folder
keyword index only grows — every keyword present before a call is present
after it, and the long lowercase underscore-tokens of every recorded
filename, including evicted records' filenames, are in the final index. -/
theorem c6_learning_log_cap (init : LearningData)
    (hinit : init.decisions.length ≤ 100) (calls : List DecisionCall) :
    ((record_decisions init calls).decisions =
      lastN 100 (init.decisions ++ calls.map mkDecision)) ∧
    (∀ fo kw, kw ∈ fkGet init.folder_keywords fo →
      kw ∈ fkGet (record_decisions init calls).folder_keywords fo) ∧
    (∀ c ∈ calls, ∀ tok ∈ keywordTokens c.filename, 3 < tok.length →
      tok ∈ fkGet (record_decisions init calls).folder_keywords c.folder) ∧
    (init = emptyLearning → calls.length = 101 →
      (record_decisions init calls).decisions = (calls.map mkDecision).drop 1 ∧
      (record_decisions init calls).decisions.length = 100) := by
  refine ⟨record_decisions_decisions calls init hinit,
    fun fo kw h => fkGet_record_mono calls init fo kw h,
    fun c hc tok htok hlen => tokens_present calls init c hc tok htok hlen, ?_⟩
  intro hempty hlen
  subst hempty
  have h1 := record_decisions_decisions calls emptyLearning (by simp [emptyLearning])
  have hml : (calls.map mkDecision).length = 101 := by simpa using hlen
  have h2 : (record_decisions emptyLearning calls).decisions =
      (calls.map mkDecision).drop 1 := by
    rw [h1]
    show lastN 100 ([] ++ calls.map mkDecision) = _
    rw [List.nil_append]
    exact lastN_drop_one _ hml
  refine ⟨h2, ?_⟩
  rw [h2, List.length_drop, hml]

/-- C6 witness: 101 identical calls starting from the empty store leave a
100-entry log missing the first record, with the filename's tokens indexed. -/
theorem c6_learning_log_cap_witness :
    (record_decisions emptyLearning
      (List.replicate 101 ⟨"t", "abcd_ef_ghij", "Bank"⟩)).decisions.length = 100 ∧
    "abcd" ∈ fkGet (record_decisions emptyLearning
      (List.replicate 101 ⟨"t", "abcd_ef_ghij", "Bank"⟩)).folder_keywords "Bank" := by
  have h := c6_learning_log_cap emptyLearning (by simp [emptyLearning])
    (List.replicate 101 ⟨"t", "abcd_ef_ghij", "Bank"⟩)
  refine ⟨(h.2.2.2 rfl (by simp)).2, ?_⟩
  exact h.2.2.1 ⟨"t", "abcd_ef_ghij", "Bank"⟩ (by simp) "abcd" (by decide) (by decide)

lemma clamp01_bounds (q : ℚ) : mkRat 0 1 ≤ clamp01 q ∧ clamp01 q ≤ mkRat 1 1 := by
  constructor
  · exact le_max_left _ _
  · exact max_le (by decide) (min_le_left _ _)

lemma validItem_props (F : List String) (j : Json) (s : Suggestion)
    (h : validItem F j = some s) :
    s.folder ∈ F ∧ mkRat 0 1 ≤ s.confidence ∧ s.confidence ≤ mkRat 1 1 := by
  unfold validItem at h
  split at h
  · split at h
    · split at h
      · split at h
        · injection h with h
          subst h
          rename_i hmem
          exact ⟨hmem, clamp01_bounds _⟩
        · exact absurd h (by simp)
      · exact absurd h (by simp)
    · exact absurd h (by simp)
  · exact absurd h (by simp)

lemma validA_props (F : List String) (items : List Json) (s : Suggestion)
    (h : s ∈ validA F items) :
    s.folder ∈ F ∧ mkRat 0 1 ≤ s.confidence ∧ s.confidence ≤ mkRat 1 1 := by
  rcases List.mem_filterMap.1 h with ⟨j, _, hj⟩
  exact validItem_props F j s hj

lemma sortByConfDesc_mem (l : List Suggestion) (s : Suggestion)
    (h : s ∈ sortByConfDesc l) : s ∈ l :=
  (List.perm_insertionSort _ l).subset h

lemma sortByConfDesc_length (l : List Suggestion) : (sortByConfDesc l).length = l.length :=
  (List.perm_insertionSort _ l).length_eq

lemma padA_mem (F : List String) :
    ∀ (fuel : Nat) (acc : List Suggestion), ∀ s ∈ padA F fuel acc,
      s ∈ acc ∨ (s.folder ∈ F ∧ s.confidence = mkRat 1 10) := by
  intro fuel
  induction fuel with
  | zero => intro acc s h; exact Or.inl h
  | succ n ih =>
    intro acc s h
    simp only [padA] at h
    split at h
    · exact Or.inl h
    · split at h
      · exact Or.inl h
      · rename_i f rest hrem
        rcases ih _ s h with h1 | h2
        · rcases List.mem_append.1 h1 with h3 | h3
          · exact Or.inl h3
          · right
            have hf : f ∈ F.filter (fun f => decide (f ∉ acc.map Suggestion.folder)) := by
              rw [hrem]; exact List.mem_cons_self f rest
            have := List.mem_filter.1 hf
            rw [List.mem_singleton.1 h3]
            exact ⟨this.1, rfl⟩
        · exact Or.inr h2

lemma padA_of_ge (F : List String) (n : Nat) (acc : List Suggestion)
    (h : 3 ≤ acc.length) : padA F (n + 1) acc = acc := by
  simp [padA, h]

lemma padA_length (F : List String) (hnd : F.Nodup) (h3 : 3 ≤ F.length) :
    ∀ (fuel : Nat) (acc : List Suggestion), acc.length ≤ 3 → 3 - acc.length ≤ fuel →
      (padA F fuel acc).length = 3 := by
  intro fuel
  induction fuel with
  | zero =>
    intro acc h1 h2
    have : acc.length = 3 := by omega
    simpa [padA]
  | succ n ih =>
    intro acc h1 h2
    simp only [padA]
    split
    · rename_i hge
      omega
    · rename_i hlt
      cases hrem : F.filter (fun f => decide (f ∉ acc.map Suggestion.folder)) with
      | nil =>
        exfalso
        have hsub : F ⊆ acc.map Suggestion.folder := by
          intro f hf
          by_contra hnf
          have : f ∈ F.filter (fun f => decide (f ∉ acc.map Suggestion.folder)) :=
            List.mem_filter.2 ⟨hf, by simpa using hnf⟩
          rw [hrem] at this
          simp at this
        have hle := (hnd.subperm hsub).length_le
        have hml : (acc.map Suggestion.folder).length = acc.length := List.length_map _ _
        omega
      | cons f rest =>
        simp only []
        apply ih
        · simp only [List.length_append, List.length_cons, List.length_nil]
          omega
        · simp only [List.length_append, List.length_cons, List.length_nil]
          omega

lemma mkRat_le_mkRat_num (a b : ℤ) (d : ℕ) (hd : 0 < d) (h : a ≤ b) :
    mkRat a d ≤ mkRat b d := by
  rw [Rat.mkRat_eq_divInt, Rat.mkRat_eq_divInt,
    Rat.divInt_le_divInt (by exact_mod_cast hd) (by exact_mod_cast hd)]
  have : (0 : ℤ) ≤ d := by exact_mod_cast Nat.zero_le d
  exact mul_le_mul_of_nonneg_right h this

lemma mkRat_tenth_le (sc : ℕ) (h : 0 < sc) : mkRat 1 10 ≤ mkRat sc 5 := by
  rw [Rat.mkRat_eq_divInt, Rat.mkRat_eq_divInt, Rat.divInt_le_divInt (by norm_num) (by norm_num)]
  have : (1 : ℤ) ≤ sc := by exact_mod_cast h
  push_cast
  omega

lemma scores_mem (F : List String) (text : String) (f : String) (sc : ℕ)
    (h : (f, sc) ∈ fallbackScores F text) : f ∈ F ∧ 0 < sc := by
  unfold fallbackScores at h
  rcases List.mem_filterMap.1 h with ⟨p, _, heq⟩
  dsimp only [] at heq
  split at heq
  · split at heq
    · rename_i hmem hsc
      injection heq with heq
      injection heq with h1 h2
      exact ⟨h1 ▸ hmem, h2 ▸ hsc⟩
    · exact absurd heq (by simp)
  · exact absurd heq (by simp)

lemma sortScoresDesc_sorted (l : List (String × Nat)) :
    (sortScoresDesc l).Pairwise (fun a b : String × Nat => b.2 ≤ a.2) := by
  haveI : IsTotal (String × Nat) (fun a b : String × Nat => b.2 ≤ a.2) :=
    ⟨fun a b => Nat.le_total b.2 a.2⟩
  haveI : IsTrans (String × Nat) (fun a b : String × Nat => b.2 ≤ a.2) :=
    ⟨fun _ _ _ h1 h2 => Nat.le_trans h2 h1⟩
  exact List.sorted_insertionSort _ l

lemma fallbackBase_sorted (F : List String) (text : String) :
    (fallbackBase F text).Pairwise (fun a b => b.confidence ≤ a.confidence) := by
  unfold fallbackBase
  refine List.Pairwise.map _ ?_ ((sortScoresDesc_sorted _).sublist (List.take_sublist _ _))
  intro a b hab
  exact min_le_min le_rfl (mkRat_le_mkRat_num _ _ 5 (by norm_num) (by exact_mod_cast hab))

lemma fallbackBase_mem (F : List String) (text : String) (s : Suggestion)
    (h : s ∈ fallbackBase F text) :
    s.folder ∈ F ∧ mkRat 1 10 ≤ s.confidence ∧ s.confidence ≤ mkRat 1 1 := by
  unfold fallbackBase at h
  rcases List.mem_map.1 h with ⟨p, hp, hs⟩
  have hmem : p ∈ fallbackScores F text :=
    (List.perm_insertionSort _ _).subset (List.mem_of_mem_take hp)
  obtain ⟨hf, hsc⟩ := scores_mem F text p.1 p.2 hmem
  subst hs
  refine ⟨hf, le_min (by decide) (mkRat_tenth_le _ hsc), ?_⟩
  exact le_trans (min_le_left _ _) (by decide)

lemma filterScores_keys_sublist (F : List String) (tl : List Char)
    (table : List (String × List String)) :
    List.Sublist
      ((table.filterMap (fun p =>
        if p.1 ∈ F then
          let score := p.2.countP (fun w => occursCL w.data tl)
          if 0 < score then some (p.1, score) else none
        else none)).map Prod.fst)
      (table.map Prod.fst) := by
  induction table with
  | nil => simp
  | cons p t ih =>
    simp only [List.filterMap_cons]
    split
    · exact ih.cons _
    · rename_i val heq
      split at heq
      · split at heq
        · injection heq with heq
          subst heq
          simpa using List.Sublist.cons₂ p.1 ih
        · exact absurd heq (by simp)
      · exact absurd heq (by simp)

lemma fallbackScores_keys_nodup (F : List String) (text : String) :
    ((fallbackScores F text).map Prod.fst).Nodup := by
  have hsub := filterScores_keys_sublist F (lowerChars text.data) keywordsDoc
  have hnd : (keywordsDoc.map Prod.fst).Nodup := by decide
  exact List.Nodup.sublist hsub hnd

lemma fallbackBase_nodup (F : List String) (text : String) :
    ((fallbackBase F text).map Suggestion.folder).Nodup := by
  unfold fallbackBase
  rw [List.map_map]
  have hcomp : (Suggestion.folder ∘ fun p : String × Nat =>
      ({ folder := p.1, reason := "Schlüsselwörter gefunden",
         confidence := min (mkRat 7 10) (mkRat p.2 5) } : Suggestion)) = Prod.fst := rfl
  rw [hcomp]
  apply List.Nodup.sublist ((List.take_sublist 2 _).map Prod.fst)
  exact ((List.perm_insertionSort _ _).map Prod.fst).nodup_iff.2
    (fallbackScores_keys_nodup F text)

lemma padS_props (F : List String) (hnd : F.Nodup) (h3 : 3 ≤ F.length) :
    ∀ (fuel : Nat) (acc : List Suggestion),
      acc.length ≤ 3 → 3 - acc.length ≤ fuel →
      acc.Pairwise (fun a b => b.confidence ≤ a.confidence) →
      (∀ s ∈ acc, mkRat 1 10 ≤ s.confidence) →
      ((acc.map Suggestion.folder).Nodup) →
      (padS F fuel acc).length = 3 ∧
      (padS F fuel acc).Pairwise (fun a b => b.confidence ≤ a.confidence) ∧
      ((padS F fuel acc).map Suggestion.folder).Nodup ∧
      (∀ s ∈ padS F fuel acc, s ∈ acc ∨ (s.folder ∈ F ∧ s.confidence = mkRat 1 10)) := by
  intro fuel
  induction fuel with
  | zero =>
    intro acc h1 h2 hsort hconf hnodup
    have hl : acc.length = 3 := by omega
    refine ⟨by simpa [padS], by simpa [padS], by simpa [padS], ?_⟩
    intro s hs
    exact Or.inl (by simpa [padS] using hs)
  | succ n ih =>
    intro acc h1 h2 hsort hconf hnodup
    by_cases hge : 3 ≤ acc.length
    · have hpad : padS F (n + 1) acc = acc := by simp [padS, hge]
      rw [hpad]
      exact ⟨by omega, hsort, hnodup, fun s hs => Or.inl hs⟩
    · have hlen3 : acc.length < 3 := by omega
      have hremne : F.filter (fun f => decide (f ∉ acc.map Suggestion.folder)) ≠ [] := by
        intro hrem
        have hsub : F ⊆ acc.map Suggestion.folder := by
          intro f hf
          by_contra hnf
          have : f ∈ F.filter (fun f => decide (f ∉ acc.map Suggestion.folder)) :=
            List.mem_filter.2 ⟨hf, by simpa using hnf⟩
          rw [hrem] at this
          simp at this
        have hle := (hnd.subperm hsub).length_le
        have hml : (acc.map Suggestion.folder).length = acc.length := List.length_map _ _
        omega
      have hstep : ∀ (x : Suggestion), x.confidence = mkRat 1 10 → x.folder ∈ F →
          x.folder ∉ acc.map Suggestion.folder →
          (padS F n (acc ++ [x])).length = 3 ∧
          (padS F n (acc ++ [x])).Pairwise (fun a b => b.confidence ≤ a.confidence) ∧
          ((padS F n (acc ++ [x])).map Suggestion.folder).Nodup ∧
          (∀ s ∈ padS F n (acc ++ [x]),
            s ∈ acc ++ [x] ∨ (s.folder ∈ F ∧ s.confidence = mkRat 1 10)) := by
        intro x hxconf hxF hxnot
        apply ih
        · simp only [List.length_append, List.length_cons, List.length_nil]
          omega
        · simp only [List.length_append, List.length_cons, List.length_nil]
          omega
        · rw [List.pairwise_append]
          refine ⟨hsort, List.pairwise_singleton _ _, ?_⟩
          intro a ha b hb
          rw [List.mem_singleton.1 hb, hxconf]
          exact hconf a ha
        · intro s hs
          rcases List.mem_append.1 hs with h | h
          · exact hconf s h
          · rw [List.mem_singleton.1 h, hxconf]
        · rw [List.map_append]
          refine ((List.perm_append_singleton _ _).nodup_iff).2 (List.nodup_cons.2 ⟨?_, hnodup⟩)
          simpa using hxnot
      have hunf : padS F (n + 1) acc =
          (if "Sonstiges" ∈ F.filter (fun f => decide (f ∉ acc.map Suggestion.folder)) then
            padS F n (acc ++ [{ folder := "Sonstiges", reason := "Standard-Fallback",
                                confidence := mkRat 1 10 }])
          else
            match F.filter (fun f => decide (f ∉ acc.map Suggestion.folder)) with
            | [] => acc
            | f :: _ =>
              padS F n (acc ++ [{ folder := f, reason := "Automatische Zuordnung",
                                  confidence := mkRat 1 10 }])) := by
        simp [padS, hge]
      rw [hunf]
      by_cases hson : "Sonstiges" ∈ F.filter (fun f => decide (f ∉ acc.map Suggestion.folder))
      · rw [if_pos hson]
        have hsf := List.mem_filter.1 hson
        have hres := hstep ⟨"Sonstiges", "Standard-Fallback", mkRat 1 10, false, none⟩
          rfl hsf.1 (by simpa using hsf.2)
        refine ⟨hres.1, hres.2.1, hres.2.2.1, ?_⟩
        intro s hs
        rcases hres.2.2.2 s hs with h | h
        · rcases List.mem_append.1 h with h4 | h4
          · exact Or.inl h4
          · right
            rw [List.mem_singleton.1 h4]
            exact ⟨hsf.1, rfl⟩
        · exact Or.inr h
      · rw [if_neg hson]
        cases hrem : F.filter (fun f => decide (f ∉ acc.map Suggestion.folder)) with
        | nil => exact absurd hrem hremne
        | cons f rest =>
          simp only []
          have hf : f ∈ F.filter (fun f => decide (f ∉ acc.map Suggestion.folder)) := by
            rw [hrem]; exact List.mem_cons_self f rest
          have hff := List.mem_filter.1 hf
          have hres := hstep ⟨f, "Automatische Zuordnung", mkRat 1 10, false, none⟩
            rfl hff.1 (by simpa using hff.2)
          refine ⟨hres.1, hres.2.1, hres.2.2.1, ?_⟩
          intro s hs
          rcases hres.2.2.2 s hs with h | h
          · rcases List.mem_append.1 h with h4 | h4
            · exact Or.inl h4
            · right
              rw [List.mem_singleton.1 h4]
              exact ⟨hff.1, rfl⟩
          · exact Or.inr h

lemma padA3_of_ge (F : List String) (acc : List Suggestion) (h : 3 ≤ acc.length) :
    padA F 3 acc = acc := by
  show padA F (2 + 1) acc = acc
  simp [padA, h]

/-- C1 counterexample: a syntactically valid model response repeating one
folder with confidences below the 0.1 padding level makes the LLM parse path
return a duplicated folder and a list that is not sorted non-increasingly by
confidence, for an available-folder set of 3 distinct folders. -/
theorem c1_counterexample :
    ((parse_llm_response ["Arbeit", "Auto", "Bank"] c1CexResponse).map Suggestion.folder =
      ["Arbeit", "Arbeit", "Auto"]) ∧
    ¬ ((parse_llm_response ["Arbeit", "Auto", "Bank"] c1CexResponse).map
        Suggestion.folder).Nodup ∧
    ¬ (parse_llm_response ["Arbeit", "Auto", "Bank"] c1CexResponse).Pairwise
        (fun a b => b.confidence ≤ a.confidence) ∧
    (["Arbeit", "Auto", "Bank"] : List String).Nodup ∧
    3 ≤ (["Arbeit", "Auto", "Bank"] : List String).length := by
  decide

/-- C1 (amended): for every available-folder set of at least 3 distinct
folders, both the LLM parse/validate path and the keyword-fallback path
return exactly 3 suggestions, each naming a member of the folder set with
confidence in [0,1]; the keyword-fallback path is additionally sorted
non-increasingly by confidence with no duplicate folders, while the LLM parse
path can repeat a folder and violate the sort order when the model's items do
(only the padding is deduplicated, and padded entries carry confidence 0.1,
which can exceed a validated item's confidence). -/
theorem c1_result_shape (F : List String) (hnd : F.Nodup) (h3 : 3 ≤ F.length) :
    (∀ response : String,
      (parse_llm_response F response).length = 3 ∧
      ∀ s ∈ parse_llm_response F response,
        s.folder ∈ F ∧ mkRat 0 1 ≤ s.confidence ∧ s.confidence ≤ mkRat 1 1) ∧
    (∀ text : String,
      (fallback_suggestions F text).length = 3 ∧
      (∀ s ∈ fallback_suggestions F text,
        s.folder ∈ F ∧ mkRat 0 1 ≤ s.confidence ∧ s.confidence ≤ mkRat 1 1) ∧
      (fallback_suggestions F text).Pairwise (fun a b => b.confidence ≤ a.confidence) ∧
      ((fallback_suggestions F text).map Suggestion.folder).Nodup) := by
  have hfb : ∀ text : String,
      (fallback_suggestions F text).length = 3 ∧
      (∀ s ∈ fallback_suggestions F text,
        s.folder ∈ F ∧ mkRat 0 1 ≤ s.confidence ∧ s.confidence ≤ mkRat 1 1) ∧
      (fallback_suggestions F text).Pairwise (fun a b => b.confidence ≤ a.confidence) ∧
      ((fallback_suggestions F text).map Suggestion.folder).Nodup := by
    intro text
    have hbase_len : (fallbackBase F text).length ≤ 2 := by
      unfold fallbackBase
      rw [List.length_map]
      exact List.length_take_le _ _
    have hp := padS_props F hnd h3 3 (fallbackBase F text) (by omega) (by omega)
      (fallbackBase_sorted F text)
      (fun s hs => (fallbackBase_mem F text s hs).2.1)
      (fallbackBase_nodup F text)
    refine ⟨hp.1, ?_, hp.2.1, hp.2.2.1⟩
    intro s hs
    rcases hp.2.2.2 s hs with h | h
    · have hb := fallbackBase_mem F text s h
      exact ⟨hb.1, le_trans (by decide) hb.2.1, hb.2.2⟩
    · exact ⟨h.1, by rw [h.2]; decide, by rw [h.2]; decide⟩
  refine ⟨?_, hfb⟩
  intro response
  unfold parse_llm_response
  cases hdec : json_loads (pyStrip (stripFences response)) with
  | none => exact ⟨(hfb "").1, (hfb "").2.1⟩
  | some v =>
    cases v with
    | null => exact ⟨(hfb "").1, (hfb "").2.1⟩
    | bool b => exact ⟨(hfb "").1, (hfb "").2.1⟩
    | num q => exact ⟨(hfb "").1, (hfb "").2.1⟩
    | str s2 => exact ⟨(hfb "").1, (hfb "").2.1⟩
    | obj fields => exact ⟨(hfb "").1, (hfb "").2.1⟩
    | arr items =>
      constructor
      · show (List.take 3 (padA F 3 (sortByConfDesc (validA F items)))).length = 3
        by_cases hL : 3 ≤ (sortByConfDesc (validA F items)).length
        · rw [padA3_of_ge F _ hL, List.length_take]
          omega
        · rw [List.length_take, padA_length F hnd h3 3 _ (by omega) (by omega)]
          omega
      · intro s hs
        have hs1 : s ∈ List.take 3 (padA F 3 (sortByConfDesc (validA F items))) := hs
        have hs2 := List.mem_of_mem_take hs1
        rcases padA_mem F 3 _ s hs2 with h | h
        · exact validA_props F items s (sortByConfDesc_mem _ s h)
        · exact ⟨h.1, by rw [h.2]; decide, by rw [h.2]; decide⟩

/-- C1 witness: the shape guarantees at a concrete folder set, response and
preview text. -/
theorem c1_result_shape_witness :
    (parse_llm_response ["Arbeit", "Auto", "Bank"] "keine antwort").length = 3 ∧
    (fallback_suggestions ["Arbeit", "Auto", "Bank"] "rechnung").length = 3 := by
  have h := c1_result_shape ["Arbeit", "Auto", "Bank"] (by decide) (by decide)
  exact ⟨(h.1 "keine antwort").1, (h.2 "rechnung").1⟩
